import Mathlib

/-!
# genspark2api — controller/chat.go

A shallow embedding of the protocol-translation core of `controller/chat.go`
(attachment resolver, event-stream decoder, streaming and non-streaming
response translators) together with theorems about it.

Conventions of the embedding

* Go `string` is Lean `String` (so bodies are valid UTF-8); `len` of a string
  is its UTF-8 length, `byteLen`.  Go `[]byte` is `List UInt8`.
* Go `interface{}` holding decoded JSON is `Value`; a Go `map[string]interface{}`
  is an association list read with `lookup` and written with `setKey`.
* Functions of the Go standard library and of third-party packages that the
  file calls (`json.Unmarshal`, `http.DetectContentType`, `base64.StdEncoding`)
  are fields of a `Lib` record; network calls are fields of a `Net` record that
  see the list of calls made so far, and every call is appended to that list.
* The gin context `c` is the list of server-sent events written so far.
* A Go run-time panic is `Except.error`.
-/

set_option autoImplicit false

namespace Controller

/-! ## Values -/

/-- Go byte slices. -/
abbrev Bytes := List UInt8

/-- Go `interface{}` values as they occur in decoded JSON documents and in the
maps the handler builds (`int` is a Go `int`, such as `len(bytes)`; `num` keeps
the literal of a decoded JSON number). -/
inductive Value where
  | null
  | bool (b : Bool)
  | num (literal : String)
  | int (n : Int)
  | str (s : String)
  | arr (xs : List Value)
  | obj (kvs : List (String × Value))

mutual
/-- Equality test on values. -/
def Value.decEq : (a b : Value) → Decidable (a = b)
  | .null, .null => isTrue rfl
  | .bool a, .bool b => if h : a = b then isTrue (by rw [h]) else isFalse (by intro e; cases e; exact h rfl)
  | .num a, .num b => if h : a = b then isTrue (by rw [h]) else isFalse (by intro e; cases e; exact h rfl)
  | .int a, .int b => if h : a = b then isTrue (by rw [h]) else isFalse (by intro e; cases e; exact h rfl)
  | .str a, .str b => if h : a = b then isTrue (by rw [h]) else isFalse (by intro e; cases e; exact h rfl)
  | .arr a, .arr b =>
    match Value.decEqList a b with
    | isTrue h => isTrue (by rw [h])
    | isFalse h => isFalse (by intro e; cases e; exact h rfl)
  | .obj a, .obj b =>
    match Value.decEqObj a b with
    | isTrue h => isTrue (by rw [h])
    | isFalse h => isFalse (by intro e; cases e; exact h rfl)
  | .null, .bool _ | .null, .num _ | .null, .int _ | .null, .str _ | .null, .arr _ | .null, .obj _
  | .bool _, .null | .bool _, .num _ | .bool _, .int _ | .bool _, .str _ | .bool _, .arr _ | .bool _, .obj _
  | .num _, .null | .num _, .bool _ | .num _, .int _ | .num _, .str _ | .num _, .arr _ | .num _, .obj _
  | .int _, .null | .int _, .bool _ | .int _, .num _ | .int _, .str _ | .int _, .arr _ | .int _, .obj _
  | .str _, .null | .str _, .bool _ | .str _, .num _ | .str _, .int _ | .str _, .arr _ | .str _, .obj _
  | .arr _, .null | .arr _, .bool _ | .arr _, .num _ | .arr _, .int _ | .arr _, .str _ | .arr _, .obj _
  | .obj _, .null | .obj _, .bool _ | .obj _, .num _ | .obj _, .int _ | .obj _, .str _ | .obj _, .arr _ =>
    isFalse (by intro e; cases e)
/-- Equality test on arrays. -/
def Value.decEqList : (a b : List Value) → Decidable (a = b)
  | [], [] => isTrue rfl
  | [], _ :: _ => isFalse (by intro e; cases e)
  | _ :: _, [] => isFalse (by intro e; cases e)
  | x :: xs, y :: ys =>
    match Value.decEq x y, Value.decEqList xs ys with
    | isTrue h1, isTrue h2 => isTrue (by rw [h1, h2])
    | isFalse h1, _ => isFalse (by intro e; cases e; exact h1 rfl)
    | _, isFalse h2 => isFalse (by intro e; cases e; exact h2 rfl)
/-- Equality test on maps. -/
def Value.decEqObj : (a b : List (String × Value)) → Decidable (a = b)
  | [], [] => isTrue rfl
  | [], _ :: _ => isFalse (by intro e; cases e)
  | _ :: _, [] => isFalse (by intro e; cases e)
  | (k1, x) :: xs, (k2, y) :: ys =>
    if hk : k1 = k2 then
      match Value.decEq x y, Value.decEqObj xs ys with
      | isTrue h1, isTrue h2 => isTrue (by rw [hk, h1, h2])
      | isFalse h1, _ => isFalse (by intro e; cases e; exact h1 rfl)
      | _, isFalse h2 => isFalse (by intro e; cases e; exact h2 rfl)
    else isFalse (by intro e; cases e; exact hk rfl)
end

instance : DecidableEq Value := Value.decEq

/-- Go `map[string]interface{}`. -/
abbrev Obj := List (String × Value)

/-- Map read `m[k]` (second component of the comma-ok form is `isSome`). -/
def lookup (k : String) : Obj → Option Value
  | [] => none
  | (k', v) :: rest => if k' = k then some v else lookup k rest

/-- Map write `m[k] = v`. -/
def setKey (k : String) (v : Value) : Obj → Obj
  | [] => [(k, v)]
  | (k', v') :: rest => if k' = k then (k, v) :: rest else (k', v') :: setKey k v rest

/-! ## The `strings` package -/

/-- Go `strings.HasPrefix`. -/
def hasPrefix (s p : String) : Bool := p.data.isPrefixOf s.data

/-- Go `strings.TrimPrefix`. -/
def trimPrefix (s p : String) : String :=
  if hasPrefix s p then String.mk (s.data.drop p.data.length) else s

/-- Go `unicode.IsSpace`. -/
def isSpace (c : Char) : Bool :=
  c = '\t' || c = '\n' || c = '\x0b' || c = '\x0c' || c = '\r' || c = ' ' ||
  c.toNat = 0x85 || c.toNat = 0xA0 || c.toNat = 0x1680 ||
  (0x2000 ≤ c.toNat && c.toNat ≤ 0x200A) ||
  c.toNat = 0x2028 || c.toNat = 0x2029 || c.toNat = 0x202F ||
  c.toNat = 0x205F || c.toNat = 0x3000

/-- Go `strings.TrimSpace`. -/
def trimSpace (s : String) : String :=
  String.mk ((s.data.dropWhile isSpace).reverse.dropWhile isSpace).reverse

/-- First occurrence of `sep` in `s`: the text before it and the text after it. -/
def cut (sep : List Char) : List Char → Option (List Char × List Char)
  | [] => if sep.isPrefixOf [] then some ([], []) else none
  | c :: cs =>
    if sep.isPrefixOf (c :: cs) then some ([], (c :: cs).drop sep.length)
    else match cut sep cs with
      | some (b, a) => some (c :: b, a)
      | none => none

/-- Go `strings.Contains`. -/
def contains (s sep : String) : Bool := (cut sep.data s.data).isSome

/-- Go `strings.Split(s, sep)[1]` for a non-empty `sep`: the text between the
first and the second occurrence of `sep` (to the end when there is no second
one); `none` is the index-out-of-range panic when `sep` does not occur. -/
def splitSecond (s sep : String) : Option String :=
  match cut sep.data s.data with
  | none => none
  | some (_, a) =>
    match cut sep.data a with
    | none => some (String.mk a)
    | some (b, _) => some (String.mk b)

/-! ## Library and environment parameters -/

/-- Target of `json.Unmarshal` in `handleNonStreamRequest`. -/
structure ParsedResponse where
  type : String
  fieldName : String
  content : String
  deriving DecidableEq, Repr

/-- Library functions called by the file.
`unmarshalMap data` is `json.Unmarshal([]byte(data), &m)` for a fresh
`m map[string]interface{}`: `none` when it returns an error, otherwise the
resulting map (the nil map of the document `null` reads like the empty map).
`unmarshalParsed` is the same call into a fresh `ParsedResponse` struct. -/
structure Lib where
  unmarshalMap : String → Option Obj
  unmarshalParsed : String → Option ParsedResponse
  detectContentType : Bytes → String
  encodeToString : Bytes → String
  decodeString : String → Option Bytes

/-! ## OpenAI response types (package `model`, fields as used in chat.go) -/

structure OpenAIDelta where
  content : String
  role : String
  deriving DecidableEq, Repr

structure OpenAIMessage where
  role : String
  content : String
  deriving DecidableEq, Repr

structure OpenAIChoice where
  index : Int
  message : OpenAIMessage
  delta : OpenAIDelta
  finishReason : Option String
  deriving DecidableEq, Repr

structure OpenAIChatCompletionResponse where
  id : String
  object : String
  created : Int
  model : String
  choices : List OpenAIChoice
  deriving DecidableEq, Repr

/-- One `c.SSEvent("", data)` call: `data` is `" " + json.Marshal(resp)` for
`chunk resp` and `" [DONE]"` for `done`. -/
inductive SSEvent where
  | chunk (resp : OpenAIChatCompletionResponse)
  | done
  deriving DecidableEq, Repr

/-- The gin context: the server-sent events written so far. -/
abbrev Context := List SSEvent

/-! ## Streaming translator -/

/-- Go `createStreamResponse`; `now` is `time.Now().Unix()`. -/
def createStreamResponse (now : Int) (responseId modelName : String) (delta : OpenAIDelta)
    (finishReason : Option String) : OpenAIChatCompletionResponse :=
  { id := responseId
    object := "chat.completion.chunk"
    created := now
    model := modelName
    choices := [{ index := 0, message := ⟨"", ""⟩, delta := delta, finishReason := finishReason }] }

/-- Go `sendSSEvent`.  `json.Marshal` has no error case on this struct (strings,
integers and a string pointer), so the returned error is always nil. -/
def sendSSEvent (c : Context) (response : OpenAIChatCompletionResponse) : Except String Context :=
  .ok (c ++ [SSEvent.chunk response])

/-- Go `handleMessageFieldDelta`: `.error` is a non-nil returned error. -/
def handleMessageFieldDelta (now : Int) (c : Context) (event : Obj) (responseId modelName : String) :
    Except String Context :=
  match lookup "field_name" event with
  | some (.str fieldName) =>
    if fieldName ≠ "session_state.answer" then .ok c
    else
      match lookup "delta" event with
      | some (.str delta) =>
        sendSSEvent c (createStreamResponse now responseId modelName ⟨delta, "assistant"⟩ none)
      | _ => .ok c
  | _ => .ok c

/-- Go `handleMessageResult`: the context after the call and the returned bool. -/
def handleMessageResult (now : Int) (c : Context) (responseId modelName : String) : Context × Bool :=
  match sendSSEvent c (createStreamResponse now responseId modelName ⟨"", ""⟩ (some "stop")) with
  | .error _ => (c, false)
  | .ok c1 => (c1 ++ [SSEvent.done], false)

/-- One call `reader.ReadString('\n')` on the unread input: the data up to
and including the first newline together with the input left unread, or `none`
when the input ends before a newline (the call then returns the data read so
far and `io.EOF`). -/
def readString : List Char → Option (List Char × List Char)
  | [] => none
  | c :: cs =>
    if c = '\n' then some ([c], cs)
    else match readString cs with
      | some (l, r) => some (c :: l, r)
      | none => none

/-- The lines that the loop of `handleStreamResponse` gets to see: the results
of successive `reader.ReadString('\n')` calls up to the first call that returns
an error.  On a string reader that error is `io.EOF`, on which the loop breaks
without looking at the data returned with it, so the text after the last
newline is not among the lines. -/
def readLines : List Char → List (List Char)
  | [] => []
  | c :: cs =>
    if c = '\n' then [c] :: readLines cs
    else match readLines cs with
      | [] => []
      | l :: ls => (c :: l) :: ls

/-- What `handleStreamResponse` leaves behind. -/
structure StreamResult where
  /-- events written to the client -/
  events : Context
  /-- value of the local `projectId` on return -/
  projectId : String
  /-- argument of the detached `makeDeleteRequest`, when one was started -/
  deleted : Option String
  /-- the returned bool -/
  ret : Bool
  deriving DecidableEq, Repr

/-- Lines 224-238 of `handleStreamResponse`: `none` is `continue`, otherwise
the event type and the decoded event. -/
def decodeLine (lib : Lib) (line : String) : Option (String × Obj) :=
  let line := trimSpace line
  if line = "" || !hasPrefix line "data: " then none
  else
    let data := trimPrefix line "data: "
    match lib.unmarshalMap data with
    | none => none
    | some event =>
      match lookup "type" event with
      | some (.str eventType) => some (eventType, event)
      | _ => none

/-- The `for` loop of `handleStreamResponse` over the lines the reader yields.
`now k` is the clock read when `k` events have been written. -/
def handleStreamLoop (lib : Lib) (autoDelChat : Int) (now : Nat → Int)
    (responseId cookie model : String) :
    List (List Char) → String → Context → StreamResult
  | [], projectId, c => ⟨c, projectId, none, false⟩
  | line :: rest, projectId, c =>
    match decodeLine lib (String.mk line) with
    | none => handleStreamLoop lib autoDelChat now responseId cookie model rest projectId c
    | some (eventType, event) =>
      if eventType = "project_start" then
        let projectId1 := match lookup "id" event with
          | some (.str id) => id
          | _ => ""
        handleStreamLoop lib autoDelChat now responseId cookie model rest projectId1 c
      else if eventType = "message_field_delta" then
        match handleMessageFieldDelta (now c.length) c event responseId model with
        | .error _ => ⟨c, projectId, none, false⟩
        | .ok c1 => handleStreamLoop lib autoDelChat now responseId cookie model rest projectId c1
      else if eventType = "message_result" then
        let deleted := if autoDelChat = 1 then some projectId else none
        let r := handleMessageResult (now c.length) c responseId model
        ⟨r.1, projectId, deleted, r.2⟩
      else handleStreamLoop lib autoDelChat now responseId cookie model rest projectId c

/-- Go `handleStreamResponse` on a reader holding `body`. -/
def handleStreamResponse (lib : Lib) (autoDelChat : Int) (now : Nat → Int) (c : Context)
    (body : String) (responseId cookie model : String) : StreamResult :=
  handleStreamLoop lib autoDelChat now responseId cookie model (readLines body.data) "" c

/-! ## Non-streaming translator -/

/-- Response of a `cycletls` call (the fields the file reads). -/
structure CycleResponse where
  status : Nat
  body : String
  deriving DecidableEq, Repr

/-- Go `bufio.MaxScanTokenSize`, the token limit of a `bufio.Scanner` that was
given no buffer of its own. -/
def maxScanTokenSize : Nat := 64 * 1024

/-- The text between consecutive newlines; the last segment is the text after
the last newline. -/
def splitLines : List Char → List (List Char)
  | [] => [[]]
  | c :: cs =>
    if c = '\n' then [] :: splitLines cs
    else match splitLines cs with
      | [] => [[c]]
      | l :: ls => (c :: l) :: ls

/-- Go `dropCR` of `bufio.ScanLines`: one trailing carriage return is removed. -/
def dropCR (l : List Char) : List Char :=
  if l.getLast? = some '\r' then l.dropLast else l

/-- Byte length of a text in UTF-8 (Go `len`). -/
def byteLen : List Char → Nat
  | [] => 0
  | c :: cs => c.utf8Size + byteLen cs

/-- Tokens that successive `scanner.Scan()` calls return for the segments of a
body: a newline-terminated line is a token, the unterminated rest is a token
when it is not empty, and `Scan` returns false (`ErrTooLong`) at the first line
that does not fit the buffer of `maxScanTokenSize` bytes together with its
newline. -/
def scanTokens : List (List Char) → List (List Char)
  | [] => []
  | [last] =>
    if last = [] then []
    else if byteLen last < maxScanTokenSize then [dropCR last] else []
  | seg :: rest =>
    if byteLen seg < maxScanTokenSize then dropCR seg :: scanTokens rest else []

/-- The `for scanner.Scan()` loop of `handleNonStreamRequest`: the value of
`content` after the loop. -/
def scanContent (lib : Lib) : List (List Char) → String
  | [] => ""
  | l :: rest =>
    let line := String.mk l
    if hasPrefix line "data: " then
      let data := trimPrefix line "data: "
      match lib.unmarshalParsed data with
      | none => scanContent lib rest
      | some parsedResponse =>
        if parsedResponse.type = "message_result" then parsedResponse.content
        else scanContent lib rest
    else scanContent lib rest

/-- Body passed to `c.JSON`. -/
inductive JSONBody where
  | error (message : String)
  | completion (resp : OpenAIChatCompletionResponse)
  deriving DecidableEq, Repr

/-- Go `handleNonStreamRequest`: status and body of the single `c.JSON` call.
`response` is the result of `makeRequest`, `stamp` the formatted
`time.Now()` of the response id and `now` is `time.Now().Unix()`. -/
def handleNonStreamRequest (lib : Lib) (response : Except String CycleResponse)
    (stamp : String) (now : Int) (modelName : String) : Nat × JSONBody :=
  match response with
  | .error err => (500, .error err)
  | .ok response =>
    let content := scanContent lib (scanTokens (splitLines response.body.data))
    if content = "" then (500, .error "No valid response content")
    else
      (200, .completion
        { id := "chatcmpl-" ++ stamp
          object := "chat.completion"
          created := now
          model := modelName
          choices := [{ index := 0, message := ⟨"assistant", content⟩, delta := ⟨"", ""⟩,
                        finishReason := some "stop" }] })

/-! ## Attachment resolver -/

deriving instance DecidableEq for Except

/-- Network calls, in the order they are made. -/
inductive Call where
  /-- `http.Get(url)` of `fetchImageBytes` -/
  | httpGet (url : String)
  /-- `makeGetUploadUrlRequest(client, cookie)` -/
  | getUploadUrl (cookie : String)
  /-- `makeUploadRequest(client, uploadUrl, fileBytes)` -/
  | upload (uploadUrl : String) (fileBytes : Bytes)
  deriving DecidableEq, Repr

/-- Response of `http.Get`: the status code and the result of reading the body
(`none` when `ioutil.ReadAll` returns an error). -/
structure HttpResponse where
  status : Nat
  body : Option Bytes
  deriving DecidableEq, Repr

/-- The network: the outcome of each call given the calls made before it;
`none` is a returned error. -/
structure Net where
  httpGet : List Call → String → Option HttpResponse
  makeGetUploadUrlRequest : List Call → String → Option CycleResponse
  makeUploadRequest : List Call → String → Bytes → Option CycleResponse

/-- Go `OpenAIChatMessage`. -/
structure OpenAIChatMessage where
  role : String
  content : Value
  deriving DecidableEq

/-- Go `fetchImageBytes`: the bytes (`none` for a returned error) and the call
log. -/
def fetchImageBytes (net : Net) (tr : List Call) (url : String) : Option Bytes × List Call :=
  match net.httpGet tr url with
  | none => (none, tr ++ [Call.httpGet url])
  | some resp => (resp.body, tr ++ [Call.httpGet url])

/-- The write `imageMap["url"] = v` as seen from the content array: `imageMap`
is the map stored under `"image_url"` in the part at `index` (the only call
site passes exactly that map), so the part at `index` now holds `imageMap1`. -/
def storeImageMap (imageMap1 : Obj) (index : Nat) (contentArray : List Value) : List Value :=
  match contentArray.get? index with
  | some (.obj contentMap) =>
    contentArray.set index (.obj (setKey "image_url" (.obj imageMap1) contentMap))
  | _ => contentArray

/-- Go `processBytes`: the content array and the call log afterwards;
`.error` is a run-time panic. -/
def processBytes (lib : Lib) (net : Net) (cookie : String) (bytes : Bytes) (imageMap : Obj)
    (index : Nat) (contentArray : List Value) (tr : List Call) :
    Except String (List Value × List Call) :=
  let contentType := lib.detectContentType bytes
  if hasPrefix contentType "image/" then
    let base64Data := "data:image/jpeg;base64," ++ lib.encodeToString bytes
    .ok (storeImageMap (setKey "url" (.str base64Data) imageMap) index contentArray, tr)
  else
    let tr1 := tr ++ [Call.getUploadUrl cookie]
    match net.makeGetUploadUrlRequest tr cookie with
    | none => .ok (contentArray, tr1)
    | some response =>
      match lib.unmarshalMap response.body with
      | none => .ok (contentArray, tr1)
      | some jsonResponse =>
        match lookup "data" jsonResponse with
        | some (.obj data) =>
          let uploadImageUrl := match lookup "upload_image_url" data with
            | some (.str u) => u
            | _ => ""
          let privateStorageUrl := match lookup "private_storage_url" data with
            | some (.str u) => u
            | _ => ""
          let ok := match lookup "private_storage_url" data with
            | some (.str _) => true
            | _ => false
          if !ok then .ok (contentArray, tr1)
          else
            let tr2 := tr1 ++ [Call.upload uploadImageUrl bytes]
            match net.makeUploadRequest tr1 uploadImageUrl bytes with
            | none => .ok (contentArray, tr2)
            | some _ =>
              match splitSecond contentType "/" with
              | none => .error "index out of range [1] with length 1"
              | some ext =>
                let privateFile := Value.obj
                  [("type", .str "private_file"),
                   ("private_file", .obj
                     [("name", .str "file"),
                      ("type", .str contentType),
                      ("size", .int bytes.length),
                      ("ext", .str ext),
                      ("private_storage_url", .str privateStorageUrl)])]
                if index < contentArray.length then .ok (contentArray.set index privateFile, tr2)
                else .error "index out of range"
        | _ => .error "interface conversion: interface {} is not map[string]interface {}"

/-- Go `processUrl`. -/
def processUrl (lib : Lib) (net : Net) (cookie : String) (url : String) (imageMap : Obj)
    (index : Nat) (contentArray : List Value) (tr : List Call) :
    Except String (List Value × List Call) :=
  if hasPrefix url "http://" || hasPrefix url "https://" then
    match fetchImageBytes net tr url with
    | (none, tr1) => .ok (contentArray, tr1)
    | (some bytes, tr1) => processBytes lib net cookie bytes imageMap index contentArray tr1
  else
    let base64Str :=
      if contains url ";base64," then
        match splitSecond url ";base64," with
        | some t => t
        | none => url
      else url
    match lib.decodeString base64Str with
    | none => .ok (contentArray, tr)
    | some bytes => processBytes lib net cookie bytes imageMap index contentArray tr

/-- Lines 60-63 of `processMessages`: the `image_url` map and its string `url`
when `content` is a part to resolve. -/
def imageUrlPart (content : Value) : Option (Obj × String) :=
  match content with
  | .obj contentMap =>
    match lookup "type" contentMap with
    | some (.str contentType) =>
      if contentType = "image_url" then
        match lookup "image_url" contentMap with
        | some (.obj imageMap) =>
          match lookup "url" imageMap with
          | some (.str url) => some (imageMap, url)
          | _ => none
        | _ => none
      else none
    | _ => none
  | _ => none

/-- The loop `for j, content := range contentArray` of `processMessages` with
`n` iterations left, the next one at index `j`. -/
def processContentArray (lib : Lib) (net : Net) (cookie : String) :
    Nat → Nat → List Value → List Call → Except String (List Value × List Call)
  | 0, _, contentArray, tr => .ok (contentArray, tr)
  | n + 1, j, contentArray, tr =>
    match contentArray.get? j with
    | none => processContentArray lib net cookie n (j + 1) contentArray tr
    | some content =>
      match imageUrlPart content with
      | none => processContentArray lib net cookie n (j + 1) contentArray tr
      | some (imageMap, url) =>
        match processUrl lib net cookie url imageMap j contentArray tr with
        | .error e => .error e
        | .ok (contentArray1, tr1) =>
          processContentArray lib net cookie n (j + 1) contentArray1 tr1

/-- Go `processMessages`: the messages and the call log afterwards. -/
def processMessages (lib : Lib) (net : Net) (cookie : String) :
    List OpenAIChatMessage → List Call → Except String (List OpenAIChatMessage × List Call)
  | [], tr => .ok ([], tr)
  | message :: rest, tr =>
    match message.content with
    | .arr contentArray =>
      match processContentArray lib net cookie contentArray.length 0 contentArray tr with
      | .error e => .error e
      | .ok (contentArray1, tr1) =>
        match processMessages lib net cookie rest tr1 with
        | .error e => .error e
        | .ok (rest1, tr2) => .ok ({ message with content := .arr contentArray1 } :: rest1, tr2)
    | _ =>
      match processMessages lib net cookie rest tr with
      | .error e => .error e
      | .ok (rest1, tr1) => .ok (message :: rest1, tr1)

/-! ## A concrete library instance

The theorems below hold for every `Lib`.  The instance `sampleLib` is used to
run the embedding on concrete bodies: a decoder for JSON documents made of
objects, arrays, strings with the two-character escapes, number literals,
`true`, `false` and `null`; the RFC 4648 base64 alphabet with padding; and the
image, PDF and text/binary rows of the content-type sniffing table. -/

namespace Sample

/-- JSON insignificant white space. -/
def isWs (c : Char) : Bool := c = ' ' || c = '\t' || c = '\n' || c = '\r'

/-- Characters of a JSON number literal. -/
def isNumChar (c : Char) : Bool :=
  c.isDigit || c = '-' || c = '+' || c = '.' || c = 'e' || c = 'E'

/-- Body of a string literal after the opening quote: decoded text and rest. -/
def parseStr : List Char → Option (List Char × List Char)
  | [] => none
  | '"' :: rest => some ([], rest)
  | '\\' :: e :: rest =>
    let dec : Option Char :=
      if e = '"' then some '"' else if e = '\\' then some '\\' else if e = '/' then some '/'
      else if e = 'n' then some '\n' else if e = 't' then some '\t' else if e = 'r' then some '\r'
      else if e = 'b' then some '\x08' else if e = 'f' then some '\x0c' else none
    match dec, parseStr rest with
    | some d, some (s, r) => some (d :: s, r)
    | _, _ => none
  | c :: rest =>
    if c.toNat < 0x20 then none
    else match parseStr rest with
      | some (s, r) => some (c :: s, r)
      | none => none

mutual
/-- One JSON value and the unread rest. -/
def parseValue : Nat → List Char → Option (Value × List Char)
  | 0, _ => none
  | fuel + 1, s =>
    match s.dropWhile isWs with
    | '"' :: r =>
      match parseStr r with
      | some (t, r1) => some (.str (String.mk t), r1)
      | none => none
    | '{' :: r =>
      match r.dropWhile isWs with
      | '}' :: r1 => some (.obj [], r1)
      | r1 => match parseMembers fuel r1 with
        | some (kvs, r2) => some (.obj kvs, r2)
        | none => none
    | '[' :: r =>
      match r.dropWhile isWs with
      | ']' :: r1 => some (.arr [], r1)
      | r1 => match parseElements fuel r1 with
        | some (xs, r2) => some (.arr xs, r2)
        | none => none
    | 't' :: 'r' :: 'u' :: 'e' :: r => some (.bool true, r)
    | 'f' :: 'a' :: 'l' :: 's' :: 'e' :: r => some (.bool false, r)
    | 'n' :: 'u' :: 'l' :: 'l' :: r => some (.null, r)
    | r =>
      match r.takeWhile isNumChar with
      | [] => none
      | lit => some (.num (String.mk lit), r.dropWhile isNumChar)
/-- Members of an object after the opening brace, up to the closing brace;
a repeated key keeps its last value. -/
def parseMembers : Nat → List Char → Option (Obj × List Char)
  | 0, _ => none
  | fuel + 1, s =>
    match s.dropWhile isWs with
    | '"' :: r =>
      match parseStr r with
      | some (k, r1) =>
        match r1.dropWhile isWs with
        | ':' :: r2 =>
          match parseValue fuel r2 with
          | some (v, r3) =>
            match r3.dropWhile isWs with
            | '}' :: r4 => some ([(String.mk k, v)], r4)
            | ',' :: r4 =>
              match parseMembers fuel r4 with
              | some (kvs, r5) =>
                some (if (lookup (String.mk k) kvs).isSome then kvs else (String.mk k, v) :: kvs, r5)
              | none => none
            | _ => none
          | none => none
        | _ => none
      | none => none
    | _ => none
/-- Elements of an array after the opening bracket, up to the closing one. -/
def parseElements : Nat → List Char → Option (List Value × List Char)
  | 0, _ => none
  | fuel + 1, s =>
    match parseValue fuel s with
    | some (v, r) =>
      match r.dropWhile isWs with
      | ']' :: r1 => some ([v], r1)
      | ',' :: r1 =>
        match parseElements fuel r1 with
        | some (xs, r2) => some (v :: xs, r2)
        | none => none
      | _ => none
    | none => none
end

/-- A whole document: one value surrounded by white space. -/
def parseDocument (s : String) : Option Value :=
  match parseValue (s.data.length + 1) s.data with
  | some (v, rest) => if rest.dropWhile isWs = [] then some v else none
  | none => none

/-- Decoding into a fresh `map[string]interface{}`. -/
def unmarshalMap (s : String) : Option Obj :=
  match parseDocument s with
  | some (.obj kvs) => some kvs
  | some .null => some []
  | _ => none

/-- One string field of a struct: absent or `null` leaves the zero value, a
value of another kind is a type error. -/
def stringField (k : String) (kvs : Obj) : Option String :=
  match lookup k kvs with
  | none => some ""
  | some .null => some ""
  | some (.str s) => some s
  | some _ => none

/-- Decoding into a fresh `ParsedResponse` (keys spelled as in the tags). -/
def unmarshalParsed (s : String) : Option ParsedResponse :=
  match unmarshalMap s with
  | none => none
  | some kvs =>
    match stringField "type" kvs, stringField "field_name" kvs, stringField "content" kvs with
    | some t, some f, some c => some ⟨t, f, c⟩
    | _, _, _ => none

/-- The base64 alphabet of RFC 4648. -/
def alphabet : List Char :=
  "ABCDEFGHIJKLMNOPQRSTUVWXYZabcdefghijklmnopqrstuvwxyz0123456789+/".data

/-- The character of a six-bit value. -/
def sextet (n : Nat) : Char := alphabet.getD (n % 64) 'A'

/-- Padded base64 encoding. -/
def encode : Bytes → List Char
  | [] => []
  | [a] => [sextet (a.toNat / 4), sextet (a.toNat % 4 * 16), '=', '=']
  | [a, b] =>
    [sextet (a.toNat / 4), sextet (a.toNat % 4 * 16 + b.toNat / 16),
     sextet (b.toNat % 16 * 4), '=']
  | a :: b :: c :: rest =>
    sextet (a.toNat / 4) :: sextet (a.toNat % 4 * 16 + b.toNat / 16) ::
      sextet (b.toNat % 16 * 4 + c.toNat / 64) :: sextet (c.toNat % 64) :: encode rest

/-- The six-bit value of an alphabet character. -/
def unsextet (c : Char) : Option Nat :=
  match alphabet.indexOf c with
  | n => if n < 64 then some n else none

/-- Padded base64 decoding of a text without line breaks. -/
def decode : List Char → Option Bytes
  | [] => some []
  | [a, b, '=', '='] =>
    match unsextet a, unsextet b with
    | some x, some y => some [UInt8.ofNat (x * 4 + y / 16)]
    | _, _ => none
  | [a, b, c, '='] =>
    match unsextet a, unsextet b, unsextet c with
    | some x, some y, some z =>
      some [UInt8.ofNat (x * 4 + y / 16), UInt8.ofNat (y % 16 * 16 + z / 4)]
    | _, _, _ => none
  | a :: b :: c :: d :: rest =>
    match unsextet a, unsextet b, unsextet c, unsextet d, decode rest with
    | some x, some y, some z, some w, some bs =>
      some (UInt8.ofNat (x * 4 + y / 16) :: UInt8.ofNat (y % 16 * 16 + z / 4) ::
        UInt8.ofNat (z % 4 * 64 + w) :: bs)
    | _, _, _, _, _ => none
  | _ => none

/-- Go `base64.StdEncoding.EncodeToString`. -/
def encodeToString (b : Bytes) : String := String.mk (encode b)

/-- Go `base64.StdEncoding.DecodeString`: carriage returns and newlines in the
input are skipped. -/
def decodeString (s : String) : Option Bytes :=
  decode (s.data.filter (fun c => c ≠ '\r' && c ≠ '\n'))

/-- Whether a byte marks data as binary in the sniffing algorithm. -/
def isBinaryByte (b : UInt8) : Bool :=
  b.toNat ≤ 0x08 || b.toNat = 0x0B || (0x0E ≤ b.toNat && b.toNat ≤ 0x1A) ||
  (0x1C ≤ b.toNat && b.toNat ≤ 0x1F)

/-- Rows of the table of `http.DetectContentType` for PNG, JPEG, GIF and PDF
signatures, followed by its text-or-binary fallback. -/
def detectContentType (b : Bytes) : String :=
  let data := b.take 512
  if ([0x89, 0x50, 0x4E, 0x47, 0x0D, 0x0A, 0x1A, 0x0A] : Bytes).isPrefixOf data then "image/png"
  else if ([0xFF, 0xD8, 0xFF] : Bytes).isPrefixOf data then "image/jpeg"
  else if ([0x47, 0x49, 0x46, 0x38, 0x37, 0x61] : Bytes).isPrefixOf data then "image/gif"
  else if ([0x47, 0x49, 0x46, 0x38, 0x39, 0x61] : Bytes).isPrefixOf data then "image/gif"
  else if ([0x25, 0x50, 0x44, 0x46, 0x2D] : Bytes).isPrefixOf data then "application/pdf"
  else if data.any isBinaryByte then "application/octet-stream"
  else "text/plain; charset=utf-8"

end Sample

/-- The instance used for concrete runs. -/
def sampleLib : Lib :=
  { unmarshalMap := Sample.unmarshalMap
    unmarshalParsed := Sample.unmarshalParsed
    detectContentType := Sample.detectContentType
    encodeToString := Sample.encodeToString
    decodeString := Sample.decodeString }

/-! ## Specification-level view of the stream -/

/-- Events the decoder yields for a body, in order. -/
def decodedEvents (lib : Lib) (body : String) : List (String × Obj) :=
  (readLines body.data).filterMap (fun l => decodeLine lib (String.mk l))

/-- The events before the first `message_result`. -/
def beforeResult (evs : List (String × Obj)) : List (String × Obj) :=
  evs.takeWhile (fun ev => ev.1 ≠ "message_result")

/-- Whether a `message_result` event occurs. -/
def hasResult (evs : List (String × Obj)) : Bool :=
  evs.any (fun ev => ev.1 = "message_result")

/-- The delta text of a `session_state.answer` field-delta event. -/
def answerDelta (ev : String × Obj) : Option String :=
  if ev.1 = "message_field_delta" ∧ lookup "field_name" ev.2 = some (.str "session_state.answer") then
    match lookup "delta" ev.2 with
    | some (.str d) => some d
    | _ => none
  else none

/-- Content chunks for a list of delta texts, the first one written when `k`
events have been written: each is a `chat.completion.chunk` with one choice
whose delta has the text as content and role `assistant`, and no finish
reason. -/
def contentChunks (now : Nat → Int) (responseId model : String) : Nat → List String → List SSEvent
  | _, [] => []
  | k, d :: ds =>
    SSEvent.chunk
      { id := responseId, object := "chat.completion.chunk", created := now k, model := model,
        choices := [{ index := 0, message := ⟨"", ""⟩, delta := ⟨d, "assistant"⟩,
                      finishReason := none }] } ::
      contentChunks now responseId model (k + 1) ds

/-- The finish chunk (one choice, empty delta, finish reason `stop`) and the
sentinel, written when `k` events have been written. -/
def finishFrames (now : Nat → Int) (responseId model : String) (k : Nat) : List SSEvent :=
  [SSEvent.chunk
    { id := responseId, object := "chat.completion.chunk", created := now k, model := model,
      choices := [{ index := 0, message := ⟨"", ""⟩, delta := ⟨"", ""⟩,
                    finishReason := some "stop" }] },
   SSEvent.done]

/-- What a client reads off a frame. -/
inductive FrameView where
  /-- a chunk with a single choice: its delta content, delta role and finish reason -/
  | chunk (content role : String) (finishReason : Option String)
  /-- the ` [DONE]` sentinel -/
  | sentinel
  /-- a chunk that does not have exactly one choice -/
  | malformed
  deriving DecidableEq, Repr

/-- The view of a written frame. -/
def frameView : SSEvent → FrameView
  | .chunk resp =>
    match resp.choices with
    | [ch] => .chunk ch.delta.content ch.delta.role ch.finishReason
    | _ => .malformed
  | .done => .sentinel

/-- Whether an event is a chunk whose choice carries a finish reason. -/
def carriesFinish : SSEvent → Bool
  | .chunk resp => resp.choices.any (fun ch => ch.finishReason.isSome)
  | .done => false

/-- The frames the streaming translator is specified to write for a sequence of
decoded events when `k` events have been written before: one content chunk per
answer delta decoded before the first `message_result`, in order, and then,
when a `message_result` was decoded, the finish chunk and the sentinel. -/
def expectedFrames (now : Nat → Int) (responseId model : String) (k : Nat)
    (evs : List (String × Obj)) : List SSEvent :=
  contentChunks now responseId model k ((beforeResult evs).filterMap answerDelta) ++
    (if hasResult evs then
      finishFrames now responseId model (k + ((beforeResult evs).filterMap answerDelta).length)
     else [])

/-! ## Specification-level view of the non-streaming scan -/

/-- The lines of a body given by its newline-separated segments: one trailing
carriage return is removed from each, and an empty text after the last newline
is no line. -/
def allLines : List (List Char) → List (List Char)
  | [] => []
  | [last] => if last = [] then [] else [dropCR last]
  | seg :: rest => dropCR seg :: allLines rest

/-- The content of a line that starts with `data: ` and whose remainder decodes
to an object of type `message_result`. -/
def resultContent (lib : Lib) (l : List Char) : Option String :=
  if hasPrefix (String.mk l) "data: " then
    match lib.unmarshalParsed (trimPrefix (String.mk l) "data: ") with
    | some parsed => if parsed.type = "message_result" then some parsed.content else none
    | none => none
  else none

/-- The content of the first such line. -/
def firstResult (lib : Lib) (lines : List (List Char)) : Option String :=
  lines.findSome? (resultContent lib)

/-! ## Specification-level view of attachment resolution -/

/-- What `processMessages` does to one content part, as a function of the part
alone: the part after the iteration and the call log. -/
def resolvePart (lib : Lib) (net : Net) (cookie : String) (p : Value) (tr : List Call) :
    Except String (Value × List Call) :=
  match imageUrlPart p with
  | none => .ok (p, tr)
  | some (imageMap, url) =>
    match processUrl lib net cookie url imageMap 0 [p] tr with
    | .error e => .error e
    | .ok (arr, tr1) => .ok (arr.headD p, tr1)

/-- The parts of a content array resolved one after the other. -/
def resolveParts (lib : Lib) (net : Net) (cookie : String) :
    List Value → List Call → Except String (List Value × List Call)
  | [], tr => .ok ([], tr)
  | p :: ps, tr =>
    match resolvePart lib net cookie p tr with
    | .error e => .error e
    | .ok (p1, tr1) =>
      match resolveParts lib net cookie ps tr1 with
      | .error e => .error e
      | .ok (ps1, tr2) => .ok (p1 :: ps1, tr2)

/-- The text that `processUrl` passes to the base64 decoder for a value that is
not an http(s) URL. -/
def base64Payload (url : String) : String :=
  if contains url ";base64," then
    match splitSecond url ";base64," with
    | some t => t
    | none => url
  else url

/-- A part with content map `contentMap` and image map `imageMap` after its url
was replaced by `u`. -/
def inlineImage (contentMap imageMap : Obj) (u : String) : Value :=
  .obj (setKey "image_url" (.obj (setKey "url" (.str u) imageMap)) contentMap)

/-- Characters of padded base64 text. -/
def isBase64Char (c : Char) : Bool :=
  c.isAlphanum || c = '+' || c = '/' || c = '='

/-- Whether `processUrl` treats the value as an address to fetch. -/
def isHttpUrl (url : String) : Bool := hasPrefix url "http://" || hasPrefix url "https://"

/-- The bytes a part's url refers to when it is resolved with call log `tr`:
the fetched body for an http(s) URL, the base64-decoded payload otherwise;
`none` when the fetch or the decoding returns an error. -/
def referencedBytes (lib : Lib) (net : Net) (tr : List Call) (url : String) : Option Bytes :=
  if isHttpUrl url then (fetchImageBytes net tr url).1 else lib.decodeString (base64Payload url)

/-- An `image_url` part that already holds an inline JPEG data URI of bytes
that sniff as an image (and that the base64 codec reads back). -/
def ResolvedPart (lib : Lib) (p : Value) : Prop :=
  ∀ imageMap url, imageUrlPart p = some (imageMap, url) →
    ∃ b : Bytes, url = "data:image/jpeg;base64," ++ lib.encodeToString b ∧
      hasPrefix (lib.detectContentType b) "image/" = true ∧
      lib.decodeString (lib.encodeToString b) = some b ∧
      (lib.encodeToString b).data.all isBase64Char = true

/-- A message list in which every part of every content array is resolved. -/
def ResolvedMessages (lib : Lib) (msgs : List OpenAIChatMessage) : Prop :=
  ∀ m ∈ msgs, ∀ arr, m.content = .arr arr → ∀ p ∈ arr, ResolvedPart lib p

/-! ## Concrete inputs -/

/-- The eight-byte PNG signature. -/
def pngBytes : Bytes := [0x89, 0x50, 0x4E, 0x47, 0x0D, 0x0A, 0x1A, 0x0A]

/-- The bytes of `%PDF-1.4`. -/
def pdfBytes : Bytes := [0x25, 0x50, 0x44, 0x46, 0x2D, 0x31, 0x2E, 0x34]

/-- The bytes of `404 page not found` and a newline, the body Go's
`http.NotFound` sends. -/
def notFoundBytes : Bytes :=
  [0x34, 0x30, 0x34, 0x20, 0x70, 0x61, 0x67, 0x65, 0x20, 0x6E, 0x6F, 0x74, 0x20, 0x66, 0x6F,
   0x75, 0x6E, 0x64, 0x0A]

/-- A text part. -/
def textPart : Value := .obj [("type", .str "text"), ("text", .str "what is this?")]

/-- An `image_url` part. -/
def imagePart (url : String) : Value :=
  .obj [("type", .str "image_url"), ("image_url", .obj [("url", .str url)])]

/-- The body of a well-formed upload-slot response. -/
def slotBody : String :=
  "\x7b\"data\":\x7b\"upload_image_url\":\"https://blob.example/u\",\"private_storage_url\":\"https://blob.example/p\"\x7d\x7d"

/-- A network on which every GET is answered with status 200 and the PNG
signature, and slot request and upload succeed. -/
def netPng : Net :=
  { httpGet := fun _ _ => some ⟨200, some pngBytes⟩
    makeGetUploadUrlRequest := fun _ _ => some ⟨200, slotBody⟩
    makeUploadRequest := fun _ _ _ => some ⟨201, ""⟩ }

/-- A network on which every GET is answered with status 404 and the not-found
page, and slot request and upload succeed. -/
def net404 : Net :=
  { httpGet := fun _ _ => some ⟨404, some notFoundBytes⟩
    makeGetUploadUrlRequest := fun _ _ => some ⟨200, slotBody⟩
    makeUploadRequest := fun _ _ _ => some ⟨201, ""⟩ }

/-- A network on which `http.Get` returns an error. -/
def netDown : Net :=
  { httpGet := fun _ _ => none
    makeGetUploadUrlRequest := fun _ _ => some ⟨200, slotBody⟩
    makeUploadRequest := fun _ _ _ => some ⟨201, ""⟩ }

/-- A network whose upload-slot endpoint answers with a JSON error object that
has no `data` member. -/
def netNoData : Net :=
  { httpGet := fun _ _ => some ⟨200, some pdfBytes⟩
    makeGetUploadUrlRequest := fun _ _ => some ⟨401, "\x7b\"code\":401,\"message\":\"unauthorized\"\x7d"⟩
    makeUploadRequest := fun _ _ _ => some ⟨201, ""⟩ }

/-- A network whose upload-slot endpoint answers with a `data` object that has
a `private_storage_url` but no `upload_image_url`, and on which the PUT returns
no error. -/
def netNoUploadUrl : Net :=
  { httpGet := fun _ _ => some ⟨200, some pdfBytes⟩
    makeGetUploadUrlRequest := fun _ _ =>
      some ⟨200, "\x7b\"data\":\x7b\"private_storage_url\":\"https://blob.example/p\"\x7d\x7d"⟩
    makeUploadRequest := fun _ _ _ => some ⟨400, ""⟩ }

/-- A request with one text part and one image part given by address. -/
def sampleMessages : List OpenAIChatMessage :=
  [⟨"system", .str "be brief"⟩,
   ⟨"user", .arr [textPart, imagePart "https://example.com/cat.png"]⟩]

/-- The same request after resolution on `netPng`. -/
def sampleResolved : List OpenAIChatMessage :=
  [⟨"system", .str "be brief"⟩,
   ⟨"user", .arr [textPart, imagePart "data:image/jpeg;base64,iVBORw0KGgo="]⟩]


/-! ## Lemmas on lines and white space -/

theorem readLines_cons_ne (c : Char) (cs : List Char) (hc : c ≠ '\n') :
    readLines (c :: cs) = match readLines cs with
      | [] => []
      | l :: ls => (c :: l) :: ls := by
  simp [readLines, hc]

theorem readLines_cons_eol (cs : List Char) : readLines ('\n' :: cs) = ['\n'] :: readLines cs := by
  simp [readLines]

/-- The lines read are the results of iterating `readString` until it fails. -/
theorem readLines_eq_readString : ∀ s : List Char,
    readLines s = match readString s with
      | none => []
      | some (l, r) => l :: readLines r
  | [] => rfl
  | c :: cs => by
    by_cases hc : c = '\n'
    · subst hc
      simp [readLines, readString]
    · rw [readLines_cons_ne c cs hc, readLines_eq_readString cs]
      simp only [readString, hc, if_false]
      cases readString cs with
      | none => rfl
      | some lr => rfl

theorem readLines_nil_of_not_mem : ∀ (l : List Char), '\n' ∉ l → readLines l = []
  | [], _ => rfl
  | c :: cs, h => by
    have hc : c ≠ '\n' := fun e => h (by simp [e])
    have hcs : '\n' ∉ cs := fun m => h (List.mem_cons_of_mem _ m)
    rw [readLines_cons_ne c cs hc, readLines_nil_of_not_mem cs hcs]

theorem readLines_line : ∀ (l rest : List Char), '\n' ∉ l →
    readLines (l ++ '\n' :: rest) = (l ++ ['\n']) :: readLines rest
  | [], rest, _ => by simp [readLines]
  | c :: cs, rest, h => by
    have hc : c ≠ '\n' := fun e => h (by simp [e])
    have hcs : '\n' ∉ cs := fun m => h (List.mem_cons_of_mem _ m)
    rw [List.cons_append, readLines_cons_ne c _ hc, readLines_line cs rest hcs]
    simp

theorem readLines_snoc_ne_nil : ∀ (p : List Char), readLines (p ++ ['\n']) ≠ []
  | [] => by simp [readLines]
  | c :: cs => by
    by_cases hc : c = '\n'
    · subst hc
      rw [List.cons_append, readLines_cons_eol]
      simp
    · have ih := readLines_snoc_ne_nil cs
      rw [List.cons_append, readLines_cons_ne c _ hc]
      cases h : readLines (cs ++ ['\n']) with
      | nil => exact absurd h ih
      | cons a b => simp

theorem readLines_append : ∀ (p rest : List Char),
    readLines (p ++ '\n' :: rest) = readLines (p ++ ['\n']) ++ readLines rest
  | [], rest => by simp [readLines]
  | c :: cs, rest => by
    by_cases hc : c = '\n'
    · subst hc
      rw [List.cons_append, List.cons_append, readLines_cons_eol, readLines_cons_eol,
        readLines_append cs rest]
      simp
    · have ih := readLines_append cs rest
      have hne := readLines_snoc_ne_nil cs
      rw [List.cons_append, List.cons_append, readLines_cons_ne c _ hc, readLines_cons_ne c _ hc, ih]
      cases h : readLines (cs ++ ['\n']) with
      | nil => exact absurd h hne
      | cons a b => simp

/-- Reading a body whose text before a given line is empty or ends in a newline. -/
theorem readLines_insert (pre line post : List Char)
    (hpre : pre = [] ∨ ∃ p, pre = p ++ ['\n']) (hline : '\n' ∉ line) :
    readLines (pre ++ (line ++ '\n' :: post)) =
      readLines pre ++ (line ++ ['\n']) :: readLines post ∧
    readLines (pre ++ post) = readLines pre ++ readLines post := by
  rcases hpre with h | ⟨p, h⟩
  · subst h
    simp [readLines, readLines_line line post hline]
  · subst h
    constructor
    · rw [List.append_assoc, List.singleton_append, readLines_append, readLines_line line post hline]
    · rw [List.append_assoc, List.singleton_append, readLines_append]

theorem dropWhile_snoc_space (p : Char → Bool) (x : Char) (hx : p x = true) :
    ∀ l : List Char, (l ++ [x]).dropWhile p =
      if l.all p then [] else l.dropWhile p ++ [x]
  | [] => by simp [List.dropWhile, hx]
  | c :: cs => by
    by_cases hc : p c = true
    · simp [List.dropWhile, hc, dropWhile_snoc_space p x hx cs]
    · simp [List.dropWhile, hc]

theorem dropWhile_eq_nil_of_all (p : Char → Bool) :
    ∀ l : List Char, l.all p = true → l.dropWhile p = []
  | [], _ => rfl
  | c :: cs, h => by
    simp only [List.all_cons, Bool.and_eq_true] at h
    simp [List.dropWhile, h.1, dropWhile_eq_nil_of_all p cs h.2]

/-- The delimiter that `ReadString` leaves at the end of a line is removed by
`strings.TrimSpace`. -/
theorem trimSpace_snoc_newline (l : List Char) :
    trimSpace (String.mk (l ++ ['\n'])) = trimSpace (String.mk l) := by
  unfold trimSpace
  simp only
  rw [dropWhile_snoc_space isSpace '\n' (by decide) l]
  by_cases h : l.all isSpace = true
  · simp [h, dropWhile_eq_nil_of_all isSpace l h]
  · simp only [h]
    simp [List.dropWhile, show isSpace '\n' = true by decide]

/-! ## The streaming loop in closed form -/

theorem handleMessageFieldDelta_eq (now : Int) (c : Context) (event : Obj)
    (responseId modelName : String) :
    handleMessageFieldDelta now c event responseId modelName =
      match answerDelta ("message_field_delta", event) with
      | some d => .ok (c ++ [SSEvent.chunk
          (createStreamResponse now responseId modelName ⟨d, "assistant"⟩ none)])
      | none => .ok c := by
  unfold handleMessageFieldDelta answerDelta sendSSEvent
  cases hf : lookup "field_name" event with
  | none => simp
  | some v =>
    cases v with
    | str fieldName =>
      by_cases hn : fieldName = "session_state.answer"
      · subst hn
        cases hd : lookup "delta" event with
        | none => simp
        | some w => cases w <;> simp
      · simp [hn]
    | _ => simp

theorem handleStreamLoop_events (lib : Lib) (autoDelChat : Int) (now : Nat → Int)
    (responseId cookie model : String) :
    ∀ (ls : List (List Char)) (projectId : String) (c : Context),
      (handleStreamLoop lib autoDelChat now responseId cookie model ls projectId c).events =
        c ++ contentChunks now responseId model c.length
            ((beforeResult (ls.filterMap (fun l => decodeLine lib (String.mk l)))).filterMap
              answerDelta) ++
          (if hasResult (ls.filterMap (fun l => decodeLine lib (String.mk l))) then
            finishFrames now responseId model (c.length +
              ((beforeResult (ls.filterMap (fun l => decodeLine lib (String.mk l)))).filterMap
                answerDelta).length)
           else [])
  | [], projectId, c => by
    simp [handleStreamLoop, beforeResult, hasResult, contentChunks]
  | line :: rest, projectId, c => by
    cases hdec : decodeLine lib (String.mk line) with
    | none =>
      rw [handleStreamLoop, hdec]
      simp only [List.filterMap_cons, hdec]
      exact handleStreamLoop_events lib autoDelChat now responseId cookie model rest projectId c
    | some ev =>
      obtain ⟨t, e⟩ := ev
      rw [handleStreamLoop, hdec]
      simp only [List.filterMap_cons, hdec]
      by_cases h1 : t = "project_start"
      · subst h1
        simp only [if_true]
        rw [handleStreamLoop_events lib autoDelChat now responseId cookie model rest _ c]
        simp [beforeResult, hasResult, answerDelta, List.takeWhile, List.filterMap_cons]
      · by_cases h2 : t = "message_field_delta"
        · subst h2
          simp only [h1, if_false, if_true]
          rw [handleMessageFieldDelta_eq]
          cases had : answerDelta ("message_field_delta", e) with
          | none =>
            simp only
            rw [handleStreamLoop_events lib autoDelChat now responseId cookie model rest _ c]
            simp [beforeResult, hasResult, List.takeWhile, List.filterMap_cons, had]
          | some d =>
            simp only
            rw [handleStreamLoop_events lib autoDelChat now responseId cookie model rest _ _]
            simp [beforeResult, hasResult, List.takeWhile, List.filterMap_cons, had,
              contentChunks, createStreamResponse, Nat.add_assoc, Nat.add_comm 1]
        · by_cases h3 : t = "message_result"
          · subst h3
            simp [h1, h2, handleMessageResult, sendSSEvent, beforeResult, hasResult,
              List.takeWhile, contentChunks, finishFrames, createStreamResponse]
          · simp only [h1, h2, h3, if_false]
            rw [handleStreamLoop_events lib autoDelChat now responseId cookie model rest _ c]
            simp [beforeResult, hasResult, answerDelta, List.takeWhile, List.filterMap_cons,
              h2, h3]

theorem carriesFinish_contentChunks (now : Nat → Int) (responseId model : String) :
    ∀ (ds : List String) (k : Nat),
      (contentChunks now responseId model k ds).filter carriesFinish = []
  | [], _ => rfl
  | d :: ds, k => by
    simp [contentChunks, carriesFinish,
      carriesFinish_contentChunks now responseId model ds (k + 1)]

theorem frameView_contentChunks (now : Nat → Int) (responseId model : String) :
    ∀ (ds : List String) (k : Nat),
      (contentChunks now responseId model k ds).map frameView =
        ds.map (fun d => FrameView.chunk d "assistant" none)
  | [], _ => rfl
  | d :: ds, k => by
    simp [contentChunks, frameView, frameView_contentChunks now responseId model ds (k + 1)]

theorem handleStreamResponse_events (lib : Lib) (autoDelChat : Int) (now : Nat → Int)
    (c : Context) (body responseId cookie model : String) :
    (handleStreamResponse lib autoDelChat now c body responseId cookie model).events =
      c ++ expectedFrames now responseId model c.length (decodedEvents lib body) := by
  unfold handleStreamResponse expectedFrames decodedEvents
  rw [handleStreamLoop_events, List.append_assoc]

theorem handleStreamLoop_skip (lib : Lib) (autoDelChat : Int) (now : Nat → Int)
    (responseId cookie model : String) (line : List Char)
    (hdec : decodeLine lib (String.mk line) = none) :
    ∀ (front back : List (List Char)) (projectId : String) (c : Context),
      handleStreamLoop lib autoDelChat now responseId cookie model (front ++ line :: back)
          projectId c =
        handleStreamLoop lib autoDelChat now responseId cookie model (front ++ back) projectId c
  | [], back, projectId, c => by
    simp only [List.nil_append]
    rw [handleStreamLoop, hdec]
  | l :: front, back, projectId, c => by
    simp only [List.cons_append]
    rw [handleStreamLoop, handleStreamLoop]
    cases decodeLine lib (String.mk l) with
    | none =>
      exact handleStreamLoop_skip lib autoDelChat now responseId cookie model line hdec front back _ _
    | some ev =>
      obtain ⟨t, e⟩ := ev
      simp only
      rw [handleStreamLoop_skip lib autoDelChat now responseId cookie model line hdec front back]
      split
      · rfl
      · split
        · cases handleMessageFieldDelta (now c.length) c e responseId model with
          | error _ => rfl
          | ok c1 =>
            simp only
            rw [handleStreamLoop_skip lib autoDelChat now responseId cookie model line hdec
              front back]
        · split
          · rfl
          · rw [handleStreamLoop_skip lib autoDelChat now responseId cookie model line hdec
              front back]

/-- C1. In the streaming loop, a decoded event of type `message_field_delta`
whose `field_name` is not the string `session_state.answer` writes no chunk
(the loop goes on with the same context); one whose `field_name` is
`session_state.answer` and whose `delta` is a string `d` writes exactly one
chunk, with `delta.content = d`, `delta.role = "assistant"` and no finish
reason, and the loop goes on. -/
theorem stream_field_delta_chunk (lib : Lib) (autoDelChat : Int) (now : Nat → Int)
    (responseId cookie model : String) (line : List Char) (rest : List (List Char))
    (projectId : String) (c : Context) (event : Obj)
    (hdec : decodeLine lib (String.mk line) = some ("message_field_delta", event)) :
    (lookup "field_name" event ≠ some (.str "session_state.answer") →
      handleMessageFieldDelta (now c.length) c event responseId model = .ok c ∧
      handleStreamLoop lib autoDelChat now responseId cookie model (line :: rest) projectId c =
        handleStreamLoop lib autoDelChat now responseId cookie model rest projectId c) ∧
    (∀ d : String, lookup "field_name" event = some (.str "session_state.answer") →
      lookup "delta" event = some (.str d) →
      handleMessageFieldDelta (now c.length) c event responseId model =
        .ok (c ++ [SSEvent.chunk
          { id := responseId, object := "chat.completion.chunk", created := now c.length,
            model := model,
            choices := [{ index := 0, message := ⟨"", ""⟩, delta := ⟨d, "assistant"⟩,
                          finishReason := none }] }]) ∧
      handleStreamLoop lib autoDelChat now responseId cookie model (line :: rest) projectId c =
        handleStreamLoop lib autoDelChat now responseId cookie model rest projectId
          (c ++ [SSEvent.chunk
            { id := responseId, object := "chat.completion.chunk", created := now c.length,
              model := model,
              choices := [{ index := 0, message := ⟨"", ""⟩, delta := ⟨d, "assistant"⟩,
                            finishReason := none }] }])) := by
  refine ⟨fun hne => ?_, fun d hf hd => ?_⟩
  · have h : handleMessageFieldDelta (now c.length) c event responseId model = .ok c := by
      rw [handleMessageFieldDelta_eq]
      simp [answerDelta, hne]
    refine ⟨h, ?_⟩
    rw [handleStreamLoop, hdec]
    simp [h]
  · have h : handleMessageFieldDelta (now c.length) c event responseId model =
        .ok (c ++ [SSEvent.chunk
          (createStreamResponse (now c.length) responseId model ⟨d, "assistant"⟩ none)]) := by
      rw [handleMessageFieldDelta_eq]
      simp [answerDelta, hf, hd]
    refine ⟨h, ?_⟩
    rw [handleStreamLoop, hdec]
    simp only [h]
    simp [createStreamResponse]

/-- C1, run on the line `data: {"type":"message_field_delta","field_name":
"session_state.answer","delta":"Hel"}`. -/
theorem stream_field_delta_chunk_witness :
    decodeLine sampleLib (String.mk ("data: \x7b\"type\":\"message_field_delta\",\"field_name\":\"session_state.answer\",\"delta\":\"Hel\"\x7d\n").data) =
      some ("message_field_delta",
        [("type", .str "message_field_delta"), ("field_name", .str "session_state.answer"),
         ("delta", .str "Hel")]) ∧
    handleMessageFieldDelta 7 []
        [("type", .str "message_field_delta"), ("field_name", .str "session_state.answer"),
         ("delta", .str "Hel")] "chatcmpl-1" "gpt" =
      .ok [SSEvent.chunk
        { id := "chatcmpl-1", object := "chat.completion.chunk", created := 7, model := "gpt",
          choices := [{ index := 0, message := ⟨"", ""⟩, delta := ⟨"Hel", "assistant"⟩,
                        finishReason := none }] }] :=
  ⟨by decide,
   ((stream_field_delta_chunk sampleLib 0 (fun _ => 7) "chatcmpl-1" "ck" "gpt"
      ("data: \x7b\"type\":\"message_field_delta\",\"field_name\":\"session_state.answer\",\"delta\":\"Hel\"\x7d\n").data
      [] "" [] _ (by decide)).2 "Hel" (by decide) (by decide)).1⟩

/-- C2. For every upstream body the frames written by the streaming translator
are exactly: for each `session_state.answer` delta decoded before the first
`message_result`, in the order decoded, one chunk whose delta has that text as
content and role `assistant` and which has no finish reason; followed, when a
`message_result` was decoded, by one chunk with empty delta and finish reason
`stop` and then the sentinel, after which nothing is written.  So at most one
written chunk carries a finish reason, it is immediately followed by the
sentinel, and every frame before it is a content chunk. -/
theorem stream_frames_shape (lib : Lib) (autoDelChat : Int) (now : Nat → Int)
    (c : Context) (body responseId cookie model : String) :
    (handleStreamResponse lib autoDelChat now c body responseId cookie model).events =
      c ++ expectedFrames now responseId model c.length (decodedEvents lib body) ∧
    (expectedFrames now responseId model c.length (decodedEvents lib body)).map frameView =
      ((beforeResult (decodedEvents lib body)).filterMap answerDelta).map
          (fun d => FrameView.chunk d "assistant" none) ++
        (if hasResult (decodedEvents lib body) then
          [FrameView.chunk "" "" (some "stop"), FrameView.sentinel]
         else []) ∧
    ((expectedFrames now responseId model c.length (decodedEvents lib body)).filter
      carriesFinish).length ≤ 1 := by
  refine ⟨handleStreamResponse_events lib autoDelChat now c body responseId cookie model, ?_, ?_⟩
  · unfold expectedFrames
    rw [List.map_append, frameView_contentChunks]
    split <;> simp [finishFrames, frameView]
  · unfold expectedFrames
    rw [List.filter_append, carriesFinish_contentChunks]
    split <;> simp [finishFrames, carriesFinish, List.filter]

/-- C2, run on deltas `Hel`, `lo` and a result: two content chunks carrying
`Hel` and `lo`, the finish chunk carrying `stop`, the sentinel. -/
theorem stream_frames_shape_witness :
    (handleStreamResponse sampleLib 0 (fun _ => 7) []
      "data: \x7b\"type\":\"message_field_delta\",\"field_name\":\"session_state.answer\",\"delta\":\"Hel\"\x7d\n\ndata: \x7b\"type\":\"message_field_delta\",\"field_name\":\"session_state.answer\",\"delta\":\"lo\"\x7d\n\ndata: \x7b\"type\":\"message_result\",\"content\":\"Hello\"\x7d\n\n"
      "chatcmpl-1" "ck" "gpt").events =
      [SSEvent.chunk
         { id := "chatcmpl-1", object := "chat.completion.chunk", created := 7, model := "gpt",
           choices := [{ index := 0, message := ⟨"", ""⟩, delta := ⟨"Hel", "assistant"⟩,
                         finishReason := none }] },
       SSEvent.chunk
         { id := "chatcmpl-1", object := "chat.completion.chunk", created := 7, model := "gpt",
           choices := [{ index := 0, message := ⟨"", ""⟩, delta := ⟨"lo", "assistant"⟩,
                         finishReason := none }] },
       SSEvent.chunk
         { id := "chatcmpl-1", object := "chat.completion.chunk", created := 7, model := "gpt",
           choices := [{ index := 0, message := ⟨"", ""⟩, delta := ⟨"", ""⟩,
                         finishReason := some "stop" }] },
       SSEvent.done] ∧
    (expectedFrames (fun _ => 7) "chatcmpl-1" "gpt" 0 (decodedEvents sampleLib
      "data: \x7b\"type\":\"message_field_delta\",\"field_name\":\"session_state.answer\",\"delta\":\"Hel\"\x7d\n\ndata: \x7b\"type\":\"message_field_delta\",\"field_name\":\"session_state.answer\",\"delta\":\"lo\"\x7d\n\ndata: \x7b\"type\":\"message_result\",\"content\":\"Hello\"\x7d\n\n")).map
        frameView =
      [FrameView.chunk "Hel" "assistant" none, FrameView.chunk "lo" "assistant" none,
       FrameView.chunk "" "" (some "stop"), FrameView.sentinel] :=
  ⟨by decide,
   (stream_frames_shape sampleLib 0 (fun _ => 7) [] _ "chatcmpl-1" "ck" "gpt").2.1.trans
     (by decide)⟩

/-- C5 as stated fails: the line `<tab>data: {"type":"message_result"}` does
not start with `data: `, yet it is decoded, writes the finish chunk and the
sentinel and ends the stream. -/
theorem stream_indented_line_decoded :
    hasPrefix "\tdata: \x7b\"type\":\"message_result\"\x7d" "data: " = false ∧
    (handleStreamResponse sampleLib 0 (fun _ => 7) []
      "\tdata: \x7b\"type\":\"message_result\"\x7d\n" "chatcmpl-1" "ck" "gpt").events =
      [SSEvent.chunk (createStreamResponse 7 "chatcmpl-1" "gpt" ⟨"", ""⟩ (some "stop")),
       SSEvent.done] ∧
    (handleStreamResponse sampleLib 0 (fun _ => 7) [] "" "chatcmpl-1" "ck" "gpt").events = [] := by
  decide

/-- C5, amended. A line of the stream that, once leading and trailing white
space is trimmed, does not start with `data: `, or whose remainder after that
prefix `json.Unmarshal` rejects, is skipped: the translator behaves on the body
exactly as on the body without that line (same frames, same recorded session
id, same delete request, same return value), whether the line is terminated by
a newline or is the unterminated end of the body. -/
theorem stream_skipped_line_absent (lib : Lib) (autoDelChat : Int) (now : Nat → Int)
    (c : Context) (responseId cookie model : String) (pre line post : String)
    (hpre : pre = "" ∨ ∃ p : String, pre = p ++ "\n") (hline : '\n' ∉ line.data)
    (hskip : hasPrefix (trimSpace line) "data: " = false ∨
      lib.unmarshalMap (trimPrefix (trimSpace line) "data: ") = none) :
    handleStreamResponse lib autoDelChat now c (pre ++ line ++ "\n" ++ post)
        responseId cookie model =
      handleStreamResponse lib autoDelChat now c (pre ++ post) responseId cookie model ∧
    handleStreamResponse lib autoDelChat now c (pre ++ line) responseId cookie model =
      handleStreamResponse lib autoDelChat now c pre responseId cookie model := by
  have hdec : decodeLine lib (String.mk (line.data ++ ['\n'])) = none := by
    unfold decodeLine
    simp only [trimSpace_snoc_newline]
    rcases hskip with h | h
    · simp [h]
    · simp [h]
  have hpre2 : pre.data = [] ∨ ∃ p, pre.data = p ++ ['\n'] := by
    rcases hpre with h | ⟨p, h⟩
    · left; rw [h]
    · right; exact ⟨p.data, by rw [h]; rfl⟩
  obtain ⟨h1, h2⟩ := readLines_insert pre.data line.data post.data hpre2 hline
  unfold handleStreamResponse
  constructor
  · have e1 : (pre ++ line ++ "\n" ++ post).data =
        pre.data ++ (line.data ++ '\n' :: post.data) := by
      simp [String.data_append]
    have e2 : (pre ++ post).data = pre.data ++ post.data := by simp [String.data_append]
    rw [e1, e2, h1, h2]
    exact handleStreamLoop_skip lib autoDelChat now responseId cookie model _ hdec _ _ _ _
  · have e3 : readLines (pre ++ line).data = readLines pre.data := by
      rw [String.data_append]
      rcases hpre2 with h | ⟨p, h⟩
      · rw [h, List.nil_append, readLines_nil_of_not_mem _ hline]
        rfl
      · rw [h, List.append_assoc, List.singleton_append, readLines_append,
          readLines_nil_of_not_mem _ hline, List.append_nil]
    rw [e3]

/-- C5 amended, run on a body whose second line is not JSON. -/
theorem stream_skipped_line_absent_witness :
    sampleLib.unmarshalMap (trimPrefix (trimSpace "data: \x7boops") "data: ") = none ∧
    handleStreamResponse sampleLib 0 (fun _ => 7) []
        ("data: \x7b\"type\":\"project_start\",\"id\":\"p1\"\x7d\n" ++ "data: \x7boops" ++ "\n" ++
          "data: \x7b\"type\":\"message_result\"\x7d\n") "chatcmpl-1" "ck" "gpt" =
      handleStreamResponse sampleLib 0 (fun _ => 7) []
        ("data: \x7b\"type\":\"project_start\",\"id\":\"p1\"\x7d\n" ++
          "data: \x7b\"type\":\"message_result\"\x7d\n") "chatcmpl-1" "ck" "gpt" :=
  ⟨by decide,
   (stream_skipped_line_absent sampleLib 0 (fun _ => 7) [] "chatcmpl-1" "ck" "gpt"
     "data: \x7b\"type\":\"project_start\",\"id\":\"p1\"\x7d\n" "data: \x7boops"
     "data: \x7b\"type\":\"message_result\"\x7d\n"
     (Or.inr ⟨"data: \x7b\"type\":\"project_start\",\"id\":\"p1\"\x7d", by decide⟩)
     (by decide) (Or.inr (by decide))).1⟩

theorem done_not_mem_contentChunks (now : Nat → Int) (responseId model : String) :
    ∀ (ds : List String) (k : Nat), SSEvent.done ∉ contentChunks now responseId model k ds
  | [], _ => by simp [contentChunks]
  | d :: ds, k => by
    intro h
    simp only [contentChunks, List.mem_cons] at h
    rcases h with h | h
    · cases h
    · exact done_not_mem_contentChunks now responseId model ds (k + 1) h

/-- When a `message_result` was decoded the written frames end with the finish
chunk and the sentinel; when none was decoded, no written frame is the
sentinel or carries a finish reason. -/
theorem stream_finish_iff_result (lib : Lib) (autoDelChat : Int) (now : Nat → Int)
    (body responseId cookie model : String) :
    (hasResult (decodedEvents lib body) = true →
      ∃ front k, (handleStreamResponse lib autoDelChat now [] body responseId cookie model).events =
        front ++ finishFrames now responseId model k) ∧
    (hasResult (decodedEvents lib body) = false →
      ∀ f ∈ (handleStreamResponse lib autoDelChat now [] body responseId cookie model).events,
        f ≠ SSEvent.done ∧ carriesFinish f = false) := by
  rw [handleStreamResponse_events]
  unfold expectedFrames
  constructor
  · intro h
    refine ⟨contentChunks now responseId model 0
      ((beforeResult (decodedEvents lib body)).filterMap answerDelta),
      0 + ((beforeResult (decodedEvents lib body)).filterMap answerDelta).length, ?_⟩
    simp only [h, if_true, List.nil_append, List.length_nil]
  · intro h f hf
    simp only [h, List.nil_append, List.append_nil, Bool.false_eq_true, if_false] at hf
    have hfin := carriesFinish_contentChunks now responseId model
      ((beforeResult (decodedEvents lib body)).filterMap answerDelta) (([] : Context).length)
    constructor
    · intro hd
      subst hd
      exact done_not_mem_contentChunks now responseId model _ _ hf
    · cases hcf : carriesFinish f with
      | false => rfl
      | true =>
        have hmem := List.mem_filter.mpr ⟨hf, hcf⟩
        rw [hfin] at hmem
        cases hmem

/-- C6 fails on the code: a body whose only line is
`data: {"type":"message_result"}` with no trailing newline writes nothing (the
data that `ReadString` returns together with `io.EOF` is discarded), while the
same body ending in a newline writes the finish chunk and the sentinel, and the
non-streaming scanner does take the unterminated last line. -/
theorem stream_unterminated_result_lost :
    handleStreamResponse sampleLib 1 (fun _ => 7) []
        "data: \x7b\"type\":\"message_result\",\"content\":\"hi\"\x7d" "chatcmpl-1" "ck" "gpt" =
      ⟨[], "", none, false⟩ ∧
    handleStreamResponse sampleLib 1 (fun _ => 7) []
        "data: \x7b\"type\":\"message_result\",\"content\":\"hi\"\x7d\n" "chatcmpl-1" "ck" "gpt" =
      ⟨[SSEvent.chunk (createStreamResponse 7 "chatcmpl-1" "gpt" ⟨"", ""⟩ (some "stop")),
        SSEvent.done], "", some "", false⟩ ∧
    (handleNonStreamRequest sampleLib
        (.ok ⟨200, "data: \x7b\"type\":\"message_result\",\"content\":\"hi\"\x7d"⟩)
        "20240101000000" 7 "gpt").1 = 200 := by
  decide

/-! ## The non-streaming scanner -/

theorem splitLines_ne_nil : ∀ l : List Char, splitLines l ≠ []
  | [] => by simp [splitLines]
  | c :: cs => by
    by_cases hc : c = '\n'
    · simp [splitLines, hc]
    · simp only [splitLines, hc, if_false]
      cases splitLines cs <;> simp

theorem splitLines_cons_ne (c : Char) (cs : List Char) (hc : c ≠ '\n') :
    splitLines (c :: cs) = match splitLines cs with
      | [] => [[c]]
      | l :: ls => (c :: l) :: ls := by
  simp [splitLines, hc]

theorem splitLines_line : ∀ (l rest : List Char), '\n' ∉ l →
    splitLines (l ++ '\n' :: rest) = l :: splitLines rest
  | [], rest, _ => by simp [splitLines]
  | c :: cs, rest, h => by
    have hc : c ≠ '\n' := fun e => h (by simp [e])
    have hcs : '\n' ∉ cs := fun m => h (List.mem_cons_of_mem _ m)
    rw [List.cons_append, splitLines_cons_ne c _ hc, splitLines_line cs rest hcs]

theorem splitLines_last : ∀ (l : List Char), '\n' ∉ l → splitLines l = [l]
  | [], _ => rfl
  | c :: cs, h => by
    have hc : c ≠ '\n' := fun e => h (by simp [e])
    have hcs : '\n' ∉ cs := fun m => h (List.mem_cons_of_mem _ m)
    rw [splitLines_cons_ne c _ hc, splitLines_last cs hcs]

theorem byteLen_append : ∀ (a b : List Char), byteLen (a ++ b) = byteLen a + byteLen b
  | [], b => by simp [byteLen]
  | c :: cs, b => by simp [byteLen, byteLen_append cs b, Nat.add_assoc]

theorem byteLen_replicate (c : Char) (hc : c.utf8Size = 1) :
    ∀ n : Nat, byteLen (List.replicate n c) = n
  | 0 => rfl
  | n + 1 => by
    simp only [List.replicate_succ, byteLen, hc, byteLen_replicate c hc n]
    omega

theorem scanTokens_too_long (seg : List Char) (rest : List (List Char))
    (h : maxScanTokenSize ≤ byteLen seg) : scanTokens (seg :: rest) = [] := by
  have hlt : ¬ byteLen seg < maxScanTokenSize := by omega
  cases rest with
  | nil =>
    unfold scanTokens
    simp [hlt]
  | cons r rs =>
    unfold scanTokens
    simp [hlt]

theorem not_mem_replicate_newline (c : Char) (hc : c ≠ '\n') (n : Nat) :
    '\n' ∉ List.replicate n c := by
  intro h
  exact hc (List.eq_of_mem_replicate h).symm

/-- A body whose first line does not fit the scanner buffer is answered with
the 500 error, whatever follows the line. -/
theorem nonstream_first_line_too_long (lib : Lib) (status : Nat) (first rest : String)
    (hnl : '\n' ∉ first.data) (hlen : maxScanTokenSize ≤ byteLen first.data)
    (stamp : String) (now : Int) (modelName : String) :
    handleNonStreamRequest lib (.ok ⟨status, first ++ "\n" ++ rest⟩) stamp now modelName =
      (500, .error "No valid response content") := by
  have hdata : (first ++ "\n" ++ rest).data = first.data ++ '\n' :: rest.data := by
    rw [String.data_append, String.data_append]
    simp
  unfold handleNonStreamRequest
  simp only
  rw [hdata, splitLines_line _ _ hnl, scanTokens_too_long _ _ hlen]
  simp [scanContent]

/-- C3 fails on the code: the body whose single line is
`data: {"type":"message_result","content":c}` with `c` made of 65536 letters
`a` is answered with the 500 error, because `scanner.Scan()` returns false on a
line that does not fit the scanner buffer; with `c = "hello"` the same body is
answered with the 200 completion whose content is `hello`. -/
theorem nonstream_long_result_line_lost :
    handleNonStreamRequest sampleLib
        (.ok ⟨200, ("data: \x7b\"type\":\"message_result\",\"content\":\"" ++
          String.mk (List.replicate 65536 'a') ++ "\"\x7d") ++ "\n" ++ ""⟩)
        "20240101000000" 7 "gpt" =
      (500, .error "No valid response content") ∧
    handleNonStreamRequest sampleLib
        (.ok ⟨200, ("data: \x7b\"type\":\"message_result\",\"content\":\"" ++
          "hello" ++ "\"\x7d") ++ "\n" ++ ""⟩)
        "20240101000000" 7 "gpt" =
      (200, .completion
        { id := "chatcmpl-20240101000000", object := "chat.completion", created := 7,
          model := "gpt",
          choices := [{ index := 0, message := ⟨"assistant", "hello"⟩, delta := ⟨"", ""⟩,
                        finishReason := some "stop" }] }) := by
  refine ⟨?_, by decide⟩
  apply nonstream_first_line_too_long
  · rw [String.data_append, String.data_append]
    intro hm
    rcases List.mem_append.mp hm with h | h
    · rcases List.mem_append.mp h with h | h
      · revert h; decide
      · exact not_mem_replicate_newline 'a' (by decide) _ h
    · revert h; decide
  · rw [String.data_append, String.data_append, byteLen_append, byteLen_append]
    have : byteLen (String.mk (List.replicate 65536 'a')).data = 65536 :=
      byteLen_replicate 'a' (by decide) 65536
    unfold maxScanTokenSize
    omega

/-- C4 fails on the code: in the body made of a comment line of 65536 dashes
followed by the line `data: {"type":"message_result","content":"hello"}`, the
first line is no `data: ` line and the second line is a `data: ` line that
decodes to type `message_result` with content `hello`, yet the request is
answered with the 500 error; with a short comment line it is answered with the
200 completion. -/
theorem nonstream_long_noise_line_hides_result :
    hasPrefix (": " ++ String.mk (List.replicate 65536 '-')) "data: " = false ∧
    sampleLib.unmarshalParsed
        (trimPrefix "data: \x7b\"type\":\"message_result\",\"content\":\"hello\"\x7d" "data: ") =
      some ⟨"message_result", "", "hello"⟩ ∧
    handleNonStreamRequest sampleLib
        (.ok ⟨200, (": " ++ String.mk (List.replicate 65536 '-')) ++ "\n" ++
          "data: \x7b\"type\":\"message_result\",\"content\":\"hello\"\x7d\n"⟩)
        "20240101000000" 7 "gpt" =
      (500, .error "No valid response content") ∧
    (handleNonStreamRequest sampleLib
        (.ok ⟨200, ": ping" ++ "\n" ++
          "data: \x7b\"type\":\"message_result\",\"content\":\"hello\"\x7d\n"⟩)
        "20240101000000" 7 "gpt").1 = 200 := by
  refine ⟨?_, by decide, ?_, by decide⟩
  · unfold hasPrefix
    rw [String.data_append]
    rfl
  · apply nonstream_first_line_too_long
    · rw [String.data_append]
      intro hm
      rcases List.mem_append.mp hm with h | h
      · revert h; decide
      · exact not_mem_replicate_newline '-' (by decide) _ h
    · rw [String.data_append, byteLen_append]
      have : byteLen (String.mk (List.replicate 65536 '-')).data = 65536 :=
        byteLen_replicate '-' (by decide) 65536
      unfold maxScanTokenSize
      omega

theorem scanContent_eq_firstResult (lib : Lib) :
    ∀ ls : List (List Char), scanContent lib ls = (firstResult lib ls).getD ""
  | [] => rfl
  | l :: rest => by
    have ih := scanContent_eq_firstResult lib rest
    unfold firstResult at ih ⊢
    simp only [scanContent, List.findSome?, resultContent]
    by_cases hp : hasPrefix (String.mk l) "data: " = true
    · simp only [hp, if_true]
      cases lib.unmarshalParsed (trimPrefix (String.mk l) "data: ") with
      | none => simpa using ih
      | some parsed =>
        by_cases ht : parsed.type = "message_result"
        · simp [ht]
        · simpa [ht] using ih
    · simp only [hp, if_false, Bool.false_eq_true]
      simpa using ih

theorem scanTokens_of_short :
    ∀ segs : List (List Char), (∀ s ∈ segs, byteLen s < maxScanTokenSize) →
      scanTokens segs = allLines segs
  | [], _ => rfl
  | [last], h => by
    have hl := h last (List.mem_singleton_self _)
    simp [scanTokens, allLines, hl]
  | seg :: r :: rs, h => by
    have hs := h seg (List.mem_cons_self _ _)
    have ih := scanTokens_of_short (r :: rs) (fun s hm => h s (List.mem_cons_of_mem _ hm))
    simp only [scanTokens, allLines, hs, if_true, ih]

/-- On a body all of whose lines fit the scanner buffer, the non-streaming
translator answers with the 200 completion carrying the content of the first
`data: ` line that decodes to type `message_result` when that content is not
empty, and with the 500 error when there is no such line or its content is
empty; lines after the first such line are not used. -/
theorem nonstream_short_lines (lib : Lib) (status : Nat) (body stamp : String) (now : Int)
    (modelName : String)
    (hshort : ∀ s ∈ splitLines body.data, byteLen s < maxScanTokenSize) :
    handleNonStreamRequest lib (.ok ⟨status, body⟩) stamp now modelName =
      match firstResult lib (allLines (splitLines body.data)) with
      | none => (500, .error "No valid response content")
      | some content =>
        if content = "" then (500, .error "No valid response content")
        else (200, .completion
          { id := "chatcmpl-" ++ stamp, object := "chat.completion", created := now,
            model := modelName,
            choices := [{ index := 0, message := ⟨"assistant", content⟩, delta := ⟨"", ""⟩,
                          finishReason := some "stop" }] }) := by
  unfold handleNonStreamRequest
  simp only
  rw [scanTokens_of_short _ hshort, scanContent_eq_firstResult]
  cases firstResult lib (allLines (splitLines body.data)) with
  | none => simp
  | some content => simp

/-! ## Maps and arrays -/

theorem lookup_setKey_self (k : String) (v : Value) :
    ∀ m : Obj, lookup k (setKey k v m) = some v
  | [] => by simp [setKey, lookup]
  | (k1, v1) :: rest => by
    by_cases h : k1 = k
    · simp [setKey, lookup, h]
    · simp [setKey, lookup, h, lookup_setKey_self k v rest]

theorem lookup_setKey_ne (k k2 : String) (v : Value) (hne : k2 ≠ k) :
    ∀ m : Obj, lookup k2 (setKey k v m) = lookup k2 m
  | [] => by simp [setKey, lookup, Ne.symm hne]
  | (k1, v1) :: rest => by
    by_cases h : k1 = k
    · subst h
      simp [setKey, lookup, Ne.symm hne]
    · by_cases h2 : k1 = k2
      · subst h2
        simp [setKey, lookup, hne]
      · simp [setKey, lookup, h, h2, lookup_setKey_ne k k2 v hne rest]

theorem setKey_eq_self (k : String) (v : Value) :
    ∀ m : Obj, lookup k m = some v → setKey k v m = m
  | [], h => by simp [lookup] at h
  | (k1, v1) :: rest, h => by
    by_cases hk : k1 = k
    · simp only [lookup, hk, if_true, Option.some.injEq] at h
      simp [setKey, hk, h]
    · simp only [lookup, hk, if_false] at h
      simp [setKey, hk, setKey_eq_self k v rest h]

theorem set_get?_self {α : Type} : ∀ (l : List α) (i : Nat) (a : α),
    l.get? i = some a → l.set i a = l
  | [], _, _, h => by simp at h
  | x :: xs, 0, a, h => by
    simp only [List.get?_cons_zero, Option.some.injEq] at h
    simp [h]
  | x :: xs, i + 1, a, h => by
    simp only [List.get?_cons_succ] at h
    simp [set_get?_self xs i a h]

theorem get?_append_length {α : Type} (p : α) (ps : List α) :
    ∀ pre : List α, (pre ++ p :: ps).get? pre.length = some p
  | [] => rfl
  | x :: xs => by simpa using get?_append_length p ps xs

theorem set_append_length {α : Type} (p q : α) (ps : List α) :
    ∀ pre : List α, (pre ++ p :: ps).set pre.length q = pre ++ q :: ps
  | [] => rfl
  | x :: xs => by simp [set_append_length p q ps xs]

/-! ## Resolution of one part depends on that part only -/

theorem processBytes_local (lib : Lib) (net : Net) (cookie : String) (bytes : Bytes)
    (imageMap : Obj) (index : Nat) (contentArray : List Value) (tr : List Call) (p : Value)
    (hp : contentArray.get? index = some p) :
    processBytes lib net cookie bytes imageMap index contentArray tr =
      match processBytes lib net cookie bytes imageMap 0 [p] tr with
      | .error e => .error e
      | .ok (arr, tr1) => .ok (contentArray.set index (arr.headD p), tr1) := by
  have hlt : index < contentArray.length := by
    rcases Nat.lt_or_ge index contentArray.length with h | h
    · exact h
    · rw [List.get?_eq_none.mpr h] at hp
      cases hp
  have hself := set_get?_self contentArray index p hp
  unfold processBytes storeImageMap
  simp only [hp, List.get?_cons_zero]
  split
  · cases p <;> simp [hself]
  · split
    · simp [hself]
    · split
      · simp [hself]
      · split
        · split
          · simp [hself]
          · split
            · simp [hself]
            · split
              · simp
              · simp [hlt]
        · simp

theorem processUrl_local (lib : Lib) (net : Net) (cookie url : String)
    (imageMap : Obj) (index : Nat) (contentArray : List Value) (tr : List Call) (p : Value)
    (hp : contentArray.get? index = some p) :
    processUrl lib net cookie url imageMap index contentArray tr =
      match processUrl lib net cookie url imageMap 0 [p] tr with
      | .error e => .error e
      | .ok (arr, tr1) => .ok (contentArray.set index (arr.headD p), tr1) := by
  have hself := set_get?_self contentArray index p hp
  unfold processUrl
  split
  · split
    · simp [hself]
    · exact processBytes_local lib net cookie _ imageMap index contentArray _ p hp
  · simp only
    split
    · simp [hself]
    · exact processBytes_local lib net cookie _ imageMap index contentArray _ p hp

theorem processContentArray_eq (lib : Lib) (net : Net) (cookie : String) :
    ∀ (ps pre : List Value) (tr : List Call),
      processContentArray lib net cookie ps.length pre.length (pre ++ ps) tr =
        match resolveParts lib net cookie ps tr with
        | .error e => .error e
        | .ok (ps1, tr1) => .ok (pre ++ ps1, tr1)
  | [], pre, tr => by simp [processContentArray, resolveParts]
  | p :: ps, pre, tr => by
    have hget := get?_append_length p ps pre
    have ih := fun (q : Value) (t : List Call) =>
      processContentArray_eq lib net cookie ps (pre ++ [q]) t
    simp only [List.length_append, List.length_singleton, List.append_assoc,
      List.singleton_append] at ih
    simp only [List.length_cons, processContentArray, hget, resolveParts, resolvePart]
    cases hpart : imageUrlPart p with
    | none =>
      simp only
      rw [ih p tr]
      cases resolveParts lib net cookie ps tr with
      | error e => rfl
      | ok r => rfl
    | some iu =>
      obtain ⟨imageMap, url⟩ := iu
      simp only
      rw [processUrl_local lib net cookie url imageMap pre.length (pre ++ p :: ps) tr p hget]
      cases processUrl lib net cookie url imageMap 0 [p] tr with
      | error e => rfl
      | ok r =>
        obtain ⟨arr, tr1⟩ := r
        simp only [set_append_length]
        rw [ih (arr.headD p) tr1]
        cases resolveParts lib net cookie ps tr1 with
        | error e => rfl
        | ok r => rfl

/-! ## Idempotence on resolved content -/

theorem imageUrlPart_some (p : Value) (imageMap : Obj) (url : String)
    (h : imageUrlPart p = some (imageMap, url)) :
    ∃ contentMap, p = .obj contentMap ∧ lookup "type" contentMap = some (.str "image_url") ∧
      lookup "image_url" contentMap = some (.obj imageMap) ∧
      lookup "url" imageMap = some (.str url) := by
  unfold imageUrlPart at h
  split at h
  · rename_i contentMap
    refine ⟨contentMap, rfl, ?_⟩
    split at h
    · rename_i contentType hty
      split at h
      · rename_i hct
        subst hct
        split at h
        · rename_i im him
          split at h
          · rename_i u hu
            simp only [Option.some.injEq, Prod.mk.injEq] at h
            obtain ⟨h1, h2⟩ := h
            subst h1 h2
            exact ⟨hty, him, hu⟩
          · cases h
        · cases h
      · cases h
    · cases h
  · cases h

theorem cut_none_of_head_not_mem (c0 : Char) (s : List Char) :
    ∀ e : List Char, c0 ∉ e → cut (c0 :: s) e = none
  | [], _ => by simp [cut, List.isPrefixOf]
  | c :: cs, h => by
    have hc : c0 ≠ c := fun e => h (by simp [e])
    have hcs : c0 ∉ cs := fun m => h (List.mem_cons_of_mem _ m)
    simp [cut, List.isPrefixOf, hc, cut_none_of_head_not_mem c0 s cs hcs]

theorem semicolon_not_mem_base64 (e : List Char) (h : e.all isBase64Char = true) : ';' ∉ e := by
  intro hm
  have := List.all_eq_true.mp h ';' hm
  revert this
  decide

theorem cut_dataUri (e : List Char) :
    cut ";base64,".data ("data:image/jpeg;base64,".data ++ e) = some ("data:image/jpeg".data, e) := by
  simp [cut, List.isPrefixOf]

theorem base64Payload_dataUri (enc : String) (h : enc.data.all isBase64Char = true) :
    isHttpUrl ("data:image/jpeg;base64," ++ enc) = false ∧
    base64Payload ("data:image/jpeg;base64," ++ enc) = enc := by
  constructor
  · simp [isHttpUrl, hasPrefix, String.data_append, List.isPrefixOf]
  · have hcut := cut_dataUri enc.data
    have hnone : cut ";base64,".data enc.data = none :=
      cut_none_of_head_not_mem ';' _ enc.data (semicolon_not_mem_base64 _ h)
    unfold base64Payload contains splitSecond
    rw [String.data_append, hcut]
    simp [hnone]

theorem processBytes_image (lib : Lib) (net : Net) (cookie : String) (b : Bytes)
    (imageMap contentMap : Obj) (index : Nat) (contentArray : List Value) (tr : List Call)
    (hpart : contentArray.get? index = some (.obj contentMap))
    (hsniff : hasPrefix (lib.detectContentType b) "image/" = true) :
    processBytes lib net cookie b imageMap index contentArray tr =
      .ok (contentArray.set index
        (inlineImage contentMap imageMap ("data:image/jpeg;base64," ++ lib.encodeToString b)), tr) := by
  unfold processBytes storeImageMap inlineImage
  simp only [hsniff, if_true, hpart]

theorem processUrl_bytes (lib : Lib) (net : Net) (cookie url : String) (b : Bytes)
    (imageMap : Obj) (index : Nat) (contentArray : List Value) (tr : List Call)
    (hbytes : referencedBytes lib net tr url = some b) :
    processUrl lib net cookie url imageMap index contentArray tr =
      processBytes lib net cookie b imageMap index contentArray
        (if isHttpUrl url then tr ++ [Call.httpGet url] else tr) := by
  unfold referencedBytes at hbytes
  unfold processUrl
  by_cases hh : isHttpUrl url = true
  · have hh2 : (hasPrefix url "http://" || hasPrefix url "https://") = true := hh
    simp only [hh, if_true] at hbytes
    simp only [hh2, if_true, hh]
    have htr : (fetchImageBytes net tr url).2 = tr ++ [Call.httpGet url] := by
      unfold fetchImageBytes
      cases net.httpGet tr url <;> rfl
    revert hbytes htr
    cases fetchImageBytes net tr url with
    | mk ob t =>
      intro hbytes htr
      simp only at hbytes htr
      subst hbytes htr
      rfl
  · have hh2 : ¬ (hasPrefix url "http://" || hasPrefix url "https://") = true := hh
    simp only [hh, if_false, Bool.false_eq_true] at hbytes
    simp only [hh2, if_false, hh, Bool.false_eq_true]
    have hp : (if contains url ";base64," = true then
        match splitSecond url ";base64," with
        | some t => t
        | none => url
      else url) = base64Payload url := rfl
    rw [hp, hbytes]

theorem resolvePart_resolved (lib : Lib) (net : Net) (cookie : String) (p : Value)
    (tr : List Call) (h : ResolvedPart lib p) :
    resolvePart lib net cookie p tr = .ok (p, tr) := by
  unfold resolvePart
  cases hpart : imageUrlPart p with
  | none => rfl
  | some iu =>
    obtain ⟨imageMap, url⟩ := iu
    obtain ⟨b, hurl, hsniff, hdec, halpha⟩ := h imageMap url hpart
    obtain ⟨contentMap, hp, _, himg, hu⟩ := imageUrlPart_some p imageMap url hpart
    obtain ⟨hhttp, hpay⟩ := base64Payload_dataUri (lib.encodeToString b) halpha
    rw [← hurl] at hhttp hpay
    have hbytes : referencedBytes lib net tr url = some b := by
      unfold referencedBytes
      simp [hhttp, hpay, hdec]
    simp only
    rw [processUrl_bytes lib net cookie url b imageMap 0 [p] tr hbytes,
      processBytes_image lib net cookie b imageMap contentMap 0 [p] _ (by rw [hp]; rfl) hsniff]
    have hsame : inlineImage contentMap imageMap
        ("data:image/jpeg;base64," ++ lib.encodeToString b) = p := by
      unfold inlineImage
      rw [← hurl, setKey_eq_self "url" _ imageMap hu, setKey_eq_self "image_url" _ contentMap himg,
        hp]
    simp [hsame, hhttp]

theorem resolveParts_resolved (lib : Lib) (net : Net) (cookie : String) :
    ∀ (ps : List Value) (tr : List Call), (∀ p ∈ ps, ResolvedPart lib p) →
      resolveParts lib net cookie ps tr = .ok (ps, tr)
  | [], tr, _ => rfl
  | p :: ps, tr, h => by
    unfold resolveParts
    rw [resolvePart_resolved lib net cookie p tr (h p (List.mem_cons_self _ _))]
    simp only
    rw [resolveParts_resolved lib net cookie ps tr
      (fun q hq => h q (List.mem_cons_of_mem _ hq))]

theorem processContentArray_start (lib : Lib) (net : Net) (cookie : String)
    (arr : List Value) (tr : List Call) :
    processContentArray lib net cookie arr.length 0 arr tr = resolveParts lib net cookie arr tr := by
  have h := processContentArray_eq lib net cookie arr [] tr
  simp only [List.length_nil, List.nil_append] at h
  rw [h]
  cases resolveParts lib net cookie arr tr with
  | error e => rfl
  | ok r => rfl

theorem processMessages_resolved (lib : Lib) (net : Net) (cookie : String) :
    ∀ (msgs : List OpenAIChatMessage) (tr : List Call), ResolvedMessages lib msgs →
      processMessages lib net cookie msgs tr = .ok (msgs, tr)
  | [], tr, _ => rfl
  | m :: rest, tr, h => by
    have hrest : ResolvedMessages lib rest := fun q hq => h q (List.mem_cons_of_mem _ hq)
    have ih := processMessages_resolved lib net cookie rest tr hrest
    obtain ⟨role, content⟩ := m
    cases content with
    | arr contentArray =>
      have hparts : ∀ p ∈ contentArray, ResolvedPart lib p :=
        h ⟨role, .arr contentArray⟩ (List.mem_cons_self _ _) contentArray rfl
      simp only [processMessages]
      rw [processContentArray_start, resolveParts_resolved lib net cookie contentArray tr hparts]
      simp only
      rw [ih]
    | _ =>
      simp only [processMessages]
      rw [ih]

/-- C9. On a message list in which every `image_url` part already holds
`data:image/jpeg;base64,` followed by the base64 text of bytes that sniff as
`image/*` (text that the decoder reads back to those bytes), `processMessages`
returns the same messages, part for part, and makes no network call; hence a
second run after a run that produced such a list changes nothing. -/
theorem processMessages_idempotent_on_resolved (lib : Lib) (net : Net) (cookie : String)
    (msgs : List OpenAIChatMessage) (tr : List Call) (h : ResolvedMessages lib msgs) :
    processMessages lib net cookie msgs tr = .ok (msgs, tr) ∧
    ∀ (msgs0 : List OpenAIChatMessage) (tr0 : List Call),
      processMessages lib net cookie msgs0 tr0 = .ok (msgs, tr) →
      (match processMessages lib net cookie msgs0 tr0 with
        | .error e => .error e
        | .ok (m1, t1) => processMessages lib net cookie m1 t1) =
      processMessages lib net cookie msgs0 tr0 := by
  have hmain := processMessages_resolved lib net cookie msgs tr h
  refine ⟨hmain, fun msgs0 tr0 h0 => ?_⟩
  rw [h0]
  exact hmain

/-! ## Failures while resolving a part -/

/-- C10 as stated fails: a GET answered with status 404 is not treated as a
failed fetch.  The not-found page is sniffed (`text/plain`), an upload slot is
requested, the page is uploaded and the part is replaced by a `private_file`
descriptor of it. -/
theorem fetch_non2xx_is_processed :
    net404.httpGet [] "https://example.com/cat.png" = some ⟨404, some notFoundBytes⟩ ∧
    processUrl sampleLib net404 "ck" "https://example.com/cat.png"
        [("url", .str "https://example.com/cat.png")] 0
        [imagePart "https://example.com/cat.png"] [] =
      .ok ([.obj [("type", .str "private_file"),
                  ("private_file", .obj
                    [("name", .str "file"),
                     ("type", .str "text/plain; charset=utf-8"),
                     ("size", .int 19),
                     ("ext", .str "plain; charset=utf-8"),
                     ("private_storage_url", .str "https://blob.example/p")])]],
           [Call.httpGet "https://example.com/cat.png", Call.getUploadUrl "ck",
            Call.upload "https://blob.example/u" notFoundBytes]) := by
  decide

/-- C10, amended. For a part whose url starts with `http://` or `https://`,
when `http.Get` returns an error or reading the response body returns an error,
`processUrl` returns normally with the content array exactly as it was and with
the GET as the only call made (no upload-slot request, no upload), and the loop
over the content array goes on with the next part.  The status code of the
response is not inspected. -/
theorem fetch_error_leaves_part (lib : Lib) (net : Net) (cookie url : String)
    (imageMap : Obj) (index : Nat) (contentArray : List Value) (tr : List Call)
    (hurl : hasPrefix url "http://" = true ∨ hasPrefix url "https://" = true)
    (hfail : net.httpGet tr url = none ∨ ∃ status, net.httpGet tr url = some ⟨status, none⟩) :
    processUrl lib net cookie url imageMap index contentArray tr =
      .ok (contentArray, tr ++ [Call.httpGet url]) ∧
    ∀ (p : Value) (n : Nat), contentArray.get? index = some p →
      imageUrlPart p = some (imageMap, url) →
      processContentArray lib net cookie (n + 1) index contentArray tr =
        processContentArray lib net cookie n (index + 1) contentArray
          (tr ++ [Call.httpGet url]) := by
  have hh : (hasPrefix url "http://" || hasPrefix url "https://") = true := by
    rcases hurl with h | h <;> simp [h]
  have hfetch : fetchImageBytes net tr url = (none, tr ++ [Call.httpGet url]) := by
    unfold fetchImageBytes
    rcases hfail with h | ⟨status, h⟩ <;> rw [h]
  have hmain : processUrl lib net cookie url imageMap index contentArray tr =
      .ok (contentArray, tr ++ [Call.httpGet url]) := by
    unfold processUrl
    simp only [hh, if_true, hfetch]
  refine ⟨hmain, fun p n hp hpart => ?_⟩
  rw [processContentArray]
  simp only [hp, hpart, hmain]

/-- C10 amended, run on a network on which `http.Get` returns an error. -/
theorem fetch_error_leaves_part_witness :
    hasPrefix "https://example.com/cat.png" "https://" = true ∧
    netDown.httpGet [] "https://example.com/cat.png" = none ∧
    processUrl sampleLib netDown "ck" "https://example.com/cat.png"
        [("url", .str "https://example.com/cat.png")] 1
        [textPart, imagePart "https://example.com/cat.png"] [] =
      .ok ([textPart, imagePart "https://example.com/cat.png"],
           [] ++ [Call.httpGet "https://example.com/cat.png"]) :=
  ⟨by decide, rfl,
   (fetch_error_leaves_part sampleLib netDown "ck" "https://example.com/cat.png"
      [("url", .str "https://example.com/cat.png")] 1
      [textPart, imagePart "https://example.com/cat.png"] []
      (Or.inr (by decide)) (Or.inl rfl)).1⟩

/-- For bytes that do not sniff as an image: a transport error of the
upload-slot request, a slot response that is not JSON, a `data` object without
a string `private_storage_url`, and an error of the PUT each leave the content
array as it was; when the `data` object has a string `private_storage_url` and
the PUT returns no error, the part at `index` is replaced by the `private_file`
descriptor. -/
theorem processBytes_upload_outcomes (lib : Lib) (net : Net) (cookie : String) (bytes : Bytes)
    (imageMap : Obj) (index : Nat) (contentArray : List Value) (tr : List Call)
    (hnon : hasPrefix (lib.detectContentType bytes) "image/" = false) :
    (net.makeGetUploadUrlRequest tr cookie = none →
      processBytes lib net cookie bytes imageMap index contentArray tr =
        .ok (contentArray, tr ++ [Call.getUploadUrl cookie])) ∧
    (∀ r, net.makeGetUploadUrlRequest tr cookie = some r → lib.unmarshalMap r.body = none →
      processBytes lib net cookie bytes imageMap index contentArray tr =
        .ok (contentArray, tr ++ [Call.getUploadUrl cookie])) ∧
    (∀ r js data, net.makeGetUploadUrlRequest tr cookie = some r →
      lib.unmarshalMap r.body = some js → lookup "data" js = some (.obj data) →
      (∀ s, lookup "private_storage_url" data ≠ some (.str s)) →
      processBytes lib net cookie bytes imageMap index contentArray tr =
        .ok (contentArray, tr ++ [Call.getUploadUrl cookie])) ∧
    (∀ r js data u s, net.makeGetUploadUrlRequest tr cookie = some r →
      lib.unmarshalMap r.body = some js → lookup "data" js = some (.obj data) →
      lookup "upload_image_url" data = some (.str u) →
      lookup "private_storage_url" data = some (.str s) →
      net.makeUploadRequest (tr ++ [Call.getUploadUrl cookie]) u bytes = none →
      processBytes lib net cookie bytes imageMap index contentArray tr =
        .ok (contentArray, tr ++ [Call.getUploadUrl cookie] ++ [Call.upload u bytes])) ∧
    (∀ r js data u s resp ext, net.makeGetUploadUrlRequest tr cookie = some r →
      lib.unmarshalMap r.body = some js → lookup "data" js = some (.obj data) →
      lookup "upload_image_url" data = some (.str u) →
      lookup "private_storage_url" data = some (.str s) →
      net.makeUploadRequest (tr ++ [Call.getUploadUrl cookie]) u bytes = some resp →
      splitSecond (lib.detectContentType bytes) "/" = some ext →
      index < contentArray.length →
      processBytes lib net cookie bytes imageMap index contentArray tr =
        .ok (contentArray.set index (.obj
              [("type", .str "private_file"),
               ("private_file", .obj
                 [("name", .str "file"),
                  ("type", .str (lib.detectContentType bytes)),
                  ("size", .int bytes.length),
                  ("ext", .str ext),
                  ("private_storage_url", .str s)])]),
             tr ++ [Call.getUploadUrl cookie] ++ [Call.upload u bytes])) := by
  refine ⟨?_, ?_, ?_, ?_, ?_⟩
  · intro h
    unfold processBytes
    simp [hnon, h]
  · intro r h1 h2
    unfold processBytes
    simp [hnon, h1, h2]
  · intro r js data h1 h2 h3 h4
    unfold processBytes
    simp only [hnon, h1, h2, h3]
    cases hps : lookup "private_storage_url" data with
    | none => simp
    | some v =>
      cases v with
      | str s => exact absurd hps (h4 s)
      | _ => simp
  · intro r js data u s h1 h2 h3 h4 h5 h6
    unfold processBytes
    simp [hnon, h1, h2, h3, h4, h5, h6]
  · intro r js data u s resp ext h1 h2 h3 h4 h5 h6 h7 h8
    unfold processBytes
    simp [hnon, h1, h2, h3, h4, h5, h6, h7, h8]

/-- C8 fails on the code.  When the upload-slot response is JSON without a
`data` object (here an error object), the unchecked type assertion
`jsonResponse["data"].(map[string]interface{})` panics, so `processBytes` does
not return normally.  And when `data` has a string `private_storage_url` but no
`upload_image_url`, the `ok` of the first assertion is overwritten by the
second: the bytes are PUT to the empty address and, the PUT returning no error,
the part is replaced by a `private_file` descriptor although no upload address
was obtained. -/
theorem upload_slot_without_data_panics :
    processBytes sampleLib netNoData "ck" pdfBytes
        [("url", .str "https://example.com/doc.pdf")] 0
        [imagePart "https://example.com/doc.pdf"] [] =
      .error "interface conversion: interface {} is not map[string]interface {}" ∧
    processBytes sampleLib netNoUploadUrl "ck" pdfBytes
        [("url", .str "https://example.com/doc.pdf")] 0
        [imagePart "https://example.com/doc.pdf"] [] =
      .ok ([.obj [("type", .str "private_file"),
                  ("private_file", .obj
                    [("name", .str "file"),
                     ("type", .str "application/pdf"),
                     ("size", .int 8),
                     ("ext", .str "pdf"),
                     ("private_storage_url", .str "https://blob.example/p")])]],
           [Call.getUploadUrl "ck", Call.upload "" pdfBytes]) := by
  decide

/-! ## Image parts -/

theorem imageUrlPart_inlineImage (contentMap imageMap : Obj) (u : String)
    (hty : lookup "type" contentMap = some (.str "image_url")) :
    imageUrlPart (inlineImage contentMap imageMap u) =
      some (setKey "url" (.str u) imageMap, u) := by
  unfold imageUrlPart inlineImage
  simp only [lookup_setKey_ne "image_url" "type" _ (by decide) contentMap, hty,
    lookup_setKey_self, if_true]

theorem resolveParts_get? (lib : Lib) (net : Net) (cookie : String) :
    ∀ (ps ps1 : List Value) (tr tr1 : List Call),
      resolveParts lib net cookie ps tr = .ok (ps1, tr1) →
      ps1.length = ps.length ∧
      ∀ j p, ps.get? j = some p →
        ∃ t t1 p1, resolvePart lib net cookie p t = .ok (p1, t1) ∧ ps1.get? j = some p1
  | [], ps1, tr, tr1, h => by
    simp only [resolveParts, Except.ok.injEq, Prod.mk.injEq] at h
    obtain ⟨h1, _⟩ := h
    subst h1
    exact ⟨rfl, fun j p hj => by simp at hj⟩
  | p :: ps, ps1, tr, tr1, h => by
    unfold resolveParts at h
    cases hp : resolvePart lib net cookie p tr with
    | error e => rw [hp] at h; cases h
    | ok r =>
      obtain ⟨q, t⟩ := r
      rw [hp] at h
      simp only at h
      cases hrest : resolveParts lib net cookie ps t with
      | error e => rw [hrest] at h; cases h
      | ok r2 =>
        obtain ⟨qs, t2⟩ := r2
        rw [hrest] at h
        simp only [Except.ok.injEq, Prod.mk.injEq] at h
        obtain ⟨h1, _⟩ := h
        subst h1
        obtain ⟨hlen, hget⟩ := resolveParts_get? lib net cookie ps qs t t2 hrest
        refine ⟨by simp [hlen], fun j x hj => ?_⟩
        cases j with
        | zero =>
          simp only [List.get?_cons_zero, Option.some.injEq] at hj
          subst hj
          exact ⟨tr, t, q, hp, rfl⟩
        | succ j =>
          simp only [List.get?_cons_succ] at hj
          obtain ⟨a, a1, x1, hx, hx1⟩ := hget j x hj
          exact ⟨a, a1, x1, hx, by simpa using hx1⟩

theorem processMessages_get? (lib : Lib) (net : Net) (cookie : String) :
    ∀ (msgs msgs1 : List OpenAIChatMessage) (tr tr1 : List Call),
      processMessages lib net cookie msgs tr = .ok (msgs1, tr1) →
      ∀ i m arr, msgs.get? i = some m → m.content = .arr arr →
        ∃ m1 arr1 t t1, msgs1.get? i = some m1 ∧ m1.role = m.role ∧ m1.content = .arr arr1 ∧
          resolveParts lib net cookie arr t = .ok (arr1, t1)
  | [], msgs1, tr, tr1, _ => fun i m arr hi _ => by simp at hi
  | m0 :: rest, msgs1, tr, tr1, h => by
    intro i m arr hi harr
    obtain ⟨role0, content0⟩ := m0
    cases content0 with
    | arr contentArray =>
      simp only [processMessages] at h
      rw [processContentArray_start] at h
      cases hparts : resolveParts lib net cookie contentArray tr with
      | error e => rw [hparts] at h; cases h
      | ok r =>
        obtain ⟨arr0, t0⟩ := r
        rw [hparts] at h
        simp only at h
        cases hrest : processMessages lib net cookie rest t0 with
        | error e => rw [hrest] at h; cases h
        | ok r2 =>
          obtain ⟨rest1, t2⟩ := r2
          rw [hrest] at h
          simp only [Except.ok.injEq, Prod.mk.injEq] at h
          obtain ⟨h1, _⟩ := h
          subst h1
          cases i with
          | zero =>
            simp only [List.get?_cons_zero, Option.some.injEq] at hi
            subst hi
            simp only [Value.arr.injEq] at harr
            subst harr
            exact ⟨_, arr0, tr, t0, rfl, rfl, rfl, hparts⟩
          | succ i =>
            simp only [List.get?_cons_succ] at hi
            obtain ⟨m1, arr1, t, t1, hm1, hr, hc, hres⟩ :=
              processMessages_get? lib net cookie rest rest1 t0 t2 hrest i m arr hi harr
            exact ⟨m1, arr1, t, t1, by simpa using hm1, hr, hc, hres⟩
    | null | bool _ | num _ | int _ | str _ | obj _ =>
      simp only [processMessages] at h
      cases hrest : processMessages lib net cookie rest tr with
      | error e => rw [hrest] at h; cases h
      | ok r2 =>
        obtain ⟨rest1, t2⟩ := r2
        rw [hrest] at h
        simp only [Except.ok.injEq, Prod.mk.injEq] at h
        obtain ⟨h1, _⟩ := h
        subst h1
        cases i with
        | zero =>
          simp only [List.get?_cons_zero, Option.some.injEq] at hi
          subst hi
          cases harr
        | succ i =>
          simp only [List.get?_cons_succ] at hi
          obtain ⟨m1, arr1, t, t1, hm1, hr, hc, hres⟩ :=
            processMessages_get? lib net cookie rest rest1 tr t2 hrest i m arr hi harr
          exact ⟨m1, arr1, t, t1, by simpa using hm1, hr, hc, hres⟩

theorem processUrl_image (lib : Lib) (net : Net) (cookie url : String) (b : Bytes)
    (imageMap contentMap : Obj) (index : Nat) (contentArray : List Value) (tr : List Call)
    (hpart : contentArray.get? index = some (.obj contentMap))
    (hbytes : referencedBytes lib net tr url = some b)
    (hsniff : hasPrefix (lib.detectContentType b) "image/" = true) :
    processUrl lib net cookie url imageMap index contentArray tr =
      .ok (contentArray.set index
        (inlineImage contentMap imageMap ("data:image/jpeg;base64," ++ lib.encodeToString b)),
        if isHttpUrl url then tr ++ [Call.httpGet url] else tr) := by
  rw [processUrl_bytes lib net cookie url b imageMap index contentArray tr hbytes,
    processBytes_image lib net cookie b imageMap contentMap index contentArray _ hpart hsniff]

/-- C7. Let an `image_url` part of a message refer to bytes `b` (the body
fetched from its http(s) address, or the base64 decoding of its raw or
data-URI-wrapped value) that sniff as `image/*`.  The step on that part returns
with the part's url set to `data:image/jpeg;base64,` followed by the base64
text of `b`, whatever the sniffed subtype, and with every other entry of the
content array untouched; and in the messages that `processMessages` returns,
that part has exactly this url, while every part that is not an `image_url`
part to resolve (a text part, say) is the part it was. -/
theorem image_part_inlined_as_jpeg (lib : Lib) (net : Net) (cookie : String)
    (msgs msgs1 : List OpenAIChatMessage) (tr tr1 : List Call) (i j : Nat)
    (m : OpenAIChatMessage) (arr : List Value) (contentMap imageMap : Obj) (url : String)
    (b : Bytes)
    (hrun : processMessages lib net cookie msgs tr = .ok (msgs1, tr1))
    (hm : msgs.get? i = some m) (harr : m.content = .arr arr)
    (hp : arr.get? j = some (.obj contentMap))
    (hpart : imageUrlPart (.obj contentMap) = some (imageMap, url))
    (hbytes : ∀ t, referencedBytes lib net t url = some b)
    (hsniff : hasPrefix (lib.detectContentType b) "image/" = true) :
    (∀ (a : List Value) (t : List Call), a.get? j = some (.obj contentMap) →
      processUrl lib net cookie url imageMap j a t =
        .ok (a.set j (inlineImage contentMap imageMap
              ("data:image/jpeg;base64," ++ lib.encodeToString b)),
             if isHttpUrl url then t ++ [Call.httpGet url] else t)) ∧
    imageUrlPart (inlineImage contentMap imageMap
        ("data:image/jpeg;base64," ++ lib.encodeToString b)) =
      some (setKey "url" (.str ("data:image/jpeg;base64," ++ lib.encodeToString b)) imageMap,
        "data:image/jpeg;base64," ++ lib.encodeToString b) ∧
    ∃ m1 arr1, msgs1.get? i = some m1 ∧ m1.role = m.role ∧ m1.content = .arr arr1 ∧
      arr1.length = arr.length ∧
      arr1.get? j = some (inlineImage contentMap imageMap
        ("data:image/jpeg;base64," ++ lib.encodeToString b)) ∧
      ∀ k q, arr.get? k = some q → imageUrlPart q = none → arr1.get? k = some q := by
  obtain ⟨cm, hcm, hty, _, _⟩ := imageUrlPart_some _ imageMap url hpart
  simp only [Value.obj.injEq] at hcm
  subst hcm
  refine ⟨fun a t ha => processUrl_image lib net cookie url b imageMap contentMap j a t ha
    (hbytes t) hsniff, imageUrlPart_inlineImage contentMap imageMap _ hty, ?_⟩
  obtain ⟨m1, arr1, t, t1, hm1, hrole, hcontent, hres⟩ :=
    processMessages_get? lib net cookie msgs msgs1 tr tr1 hrun i m arr hm harr
  obtain ⟨hlen, hget⟩ := resolveParts_get? lib net cookie arr arr1 t t1 hres
  refine ⟨m1, arr1, hm1, hrole, hcontent, hlen, ?_, ?_⟩
  · obtain ⟨a, a1, p1, hstep, hp1⟩ := hget j _ hp
    unfold resolvePart at hstep
    rw [hpart] at hstep
    simp only at hstep
    rw [processUrl_image lib net cookie url b imageMap contentMap 0 [.obj contentMap] a rfl
      (hbytes a) hsniff] at hstep
    simp only [List.set_cons_zero, List.headD_cons, Except.ok.injEq, Prod.mk.injEq] at hstep
    rw [hp1, ← hstep.1]
  · intro k q hk hq
    obtain ⟨a, a1, p1, hstep, hp1⟩ := hget k q hk
    unfold resolvePart at hstep
    rw [hq] at hstep
    simp only [Except.ok.injEq, Prod.mk.injEq] at hstep
    rw [hp1, ← hstep.1]

/-- C7, run on a request with a text part and a part whose address serves PNG
bytes. -/
theorem image_part_inlined_as_jpeg_witness :
    processMessages sampleLib netPng "ck" sampleMessages [] =
      .ok (sampleResolved, [Call.httpGet "https://example.com/cat.png"]) ∧
    sampleLib.detectContentType pngBytes = "image/png" ∧
    ∃ m1 arr1, sampleResolved.get? 1 = some m1 ∧ m1.role = "user" ∧ m1.content = .arr arr1 ∧
      arr1.length = [textPart, imagePart "https://example.com/cat.png"].length ∧
      arr1.get? 1 = some (inlineImage
        [("type", .str "image_url"), ("image_url", .obj [("url", .str "https://example.com/cat.png")])]
        [("url", .str "https://example.com/cat.png")]
        ("data:image/jpeg;base64," ++ sampleLib.encodeToString pngBytes)) ∧
      ∀ k q, [textPart, imagePart "https://example.com/cat.png"].get? k = some q →
        imageUrlPart q = none → arr1.get? k = some q :=
  ⟨by decide, by decide,
   (image_part_inlined_as_jpeg sampleLib netPng "ck" sampleMessages sampleResolved []
      [Call.httpGet "https://example.com/cat.png"] 1 1
      ⟨"user", .arr [textPart, imagePart "https://example.com/cat.png"]⟩
      [textPart, imagePart "https://example.com/cat.png"]
      [("type", .str "image_url"), ("image_url", .obj [("url", .str "https://example.com/cat.png")])]
      [("url", .str "https://example.com/cat.png")] "https://example.com/cat.png" pngBytes
      (by decide) rfl rfl rfl (by decide) (fun _ => rfl) (by decide)).2.2⟩

theorem sampleResolved_resolved : ResolvedMessages sampleLib sampleResolved := by
  intro m hm arr harr p hp imageMap url hpart
  simp only [sampleResolved, List.mem_cons, List.mem_singleton, List.not_mem_nil, or_false] at hm
  rcases hm with hm | hm
  · subst hm
    cases harr
  · subst hm
    simp only [Value.arr.injEq] at harr
    subst harr
    simp only [List.mem_cons, List.mem_singleton, List.not_mem_nil, or_false] at hp
    rcases hp with hp | hp
    · subst hp
      have hv : imageUrlPart textPart = none := by decide
      rw [hv] at hpart
      cases hpart
    · subst hp
      have hv : imageUrlPart (imagePart "data:image/jpeg;base64,iVBORw0KGgo=") =
          some ([("url", .str "data:image/jpeg;base64,iVBORw0KGgo=")],
            "data:image/jpeg;base64,iVBORw0KGgo=") := by decide
      rw [hv] at hpart
      simp only [Option.some.injEq, Prod.mk.injEq] at hpart
      obtain ⟨_, hu⟩ := hpart
      subst hu
      exact ⟨pngBytes, by decide, by decide, by decide, by decide⟩

/-- C9, run on the resolved request: a second run returns it unchanged and
makes no call. -/
theorem processMessages_idempotent_on_resolved_witness :
    ResolvedMessages sampleLib sampleResolved ∧
    processMessages sampleLib netPng "ck" sampleResolved [] = .ok (sampleResolved, []) :=
  ⟨sampleResolved_resolved,
   (processMessages_idempotent_on_resolved sampleLib netPng "ck" sampleResolved []
      sampleResolved_resolved).1⟩

end Controller
